/-
Verification of the wr124 task-management core against its specification.

The repository ships a React console (frontend), deployment scripts and agent
prompt files; the data-management core they consume (Entity Store, Dependency
Graph Validator, Version Ledger, Audit Log, Task Service) is described in the
specification but its implementation is not part of the source tree.  The
console components are embedded here directly from their JavaScript source;
the core is modelled from the specification, as noted on each definition.
-/
import Mathlib

namespace Wr124

/-! ## Console embedding (from the JavaScript source) -/

/-- A minimal JSON value type used to describe request bodies the console
builds with JSON.stringify. -/
inductive JsonVal where
  | str (s : String)
  | strList (ss : List String)
  | objList (n : Nat)
  deriving DecidableEq, Repr

/-- An HTTP request as the console's fetch calls issue it: method, URL,
headers and an optional JSON body given as ordered key/value pairs. -/
structure HttpRequest where
  method : String
  url : String
  headers : List (String × String)
  body : Option (List (String × JsonVal))
  deriving DecidableEq, Repr

/-- JavaScript's String.prototype.trim, modelled structurally on the
character list (drops leading and trailing whitespace), so that it
evaluates inside the kernel. -/
def jsTrim (s : String) : String :=
  ⟨((s.data.dropWhile Char.isWhitespace).reverse.dropWhile Char.isWhitespace).reverse⟩

namespace CreateTaskModal

/-- The create-form state of CreateTaskModal (src/unnamed/part_001):
taskName, description, implementationGuide, verificationCriteria and
selectedDependencies. -/
structure FormState where
  taskName : String
  description : String
  implementationGuide : String
  verificationCriteria : String
  selectedDependencies : List String
  deriving DecidableEq, Repr

/-- The POST body handleSubmit (src/unnamed/part_001, lines 53-105) sends:
`none` when one of the four required fields is blank after trimming (the
function alerts and returns without issuing the POST), otherwise the
JSON.stringify'd object with status fixed to "pending". -/
def handleSubmitBody (f : FormState) : Option (List (String × JsonVal)) :=
  if jsTrim f.taskName = "" then none
  else if jsTrim f.description = "" then none
  else if jsTrim f.implementationGuide = "" then none
  else if jsTrim f.verificationCriteria = "" then none
  else some
    [("name", .str (jsTrim f.taskName)),
     ("description", .str (jsTrim f.description)),
     ("implementation_guide", .str (jsTrim f.implementationGuide)),
     ("verification_criteria", .str (jsTrim f.verificationCriteria)),
     ("dependencies", .strList f.selectedDependencies),
     ("status", .str "pending")]

/-- Looks up the "status" field of a submitted body. -/
def statusField (body : List (String × JsonVal)) : Option JsonVal :=
  (body.find? (fun kv => kv.1 == "status")).map (fun kv => kv.2)

end CreateTaskModal

namespace EditTaskModal

/-- The taskData state of EditTaskModal (src/frontend/src/components/
EditTaskModal.js, lines 6-15): the eight editable fields, in the object's
insertion order. -/
structure TaskData where
  name : String
  description : String
  status : String
  dependencies : List String
  notes : String
  implementation_guide : String
  verification_criteria : String
  related_files : Nat
  deriving DecidableEq, Repr

/-- The PATCH body handleSubmit (EditTaskModal.js, lines 57-88) serializes:
JSON.stringify(taskData), i.e. exactly the eight taskData fields in order. -/
def patchBody (d : TaskData) : List (String × JsonVal) :=
  [("name", .str d.name),
   ("description", .str d.description),
   ("status", .str d.status),
   ("dependencies", .strList d.dependencies),
   ("notes", .str d.notes),
   ("implementation_guide", .str d.implementation_guide),
   ("verification_criteria", .str d.verification_criteria),
   ("related_files", .objList d.related_files)]

/-- The PATCH request handleSubmit issues, `none` when the name is blank
after trimming (the function alerts and returns without fetching). -/
def submitRequest (projectId taskId : String) (d : TaskData) : Option HttpRequest :=
  if jsTrim d.name = "" then none
  else some
    { method := "PATCH"
      url := "/api/" ++ projectId ++ "/tasks/" ++ taskId
      headers := [("Content-Type", "application/json"), ("X-Project-ID", projectId)]
      body := some (patchBody d) }

/-- The status choices the EditTaskModal status select offers
(EditTaskModal.js, lines 166-178). -/
def statusOptions : List String :=
  ["pending", "in_progress", "completed", "failed", "cancelled"]

end EditTaskModal

namespace TaskTableView

/-- The DELETE request handleDeleteTask (src/frontend/src/components/
TaskTableView.js, lines 32-60) issues once the user confirms: no body at
all, only headers. -/
def deleteRequest (projectId taskId : String) : HttpRequest :=
  { method := "DELETE"
    url := "/api/" ++ projectId ++ "/tasks/" ++ taskId
    headers := [("Content-Type", "application/json"), ("X-Project-ID", projectId)]
    body := none }

end TaskTableView

/-- The keys of a request body. -/
def bodyKeys (body : List (String × JsonVal)) : List String :=
  body.map (fun kv => kv.1)

/-- Whether a request carries an optimistic-version token: some body key
names the version (the spec calls it the caller's last-known
version_number / expectedVersion). -/
def carriesVersionToken (r : HttpRequest) : Bool :=
  match r.body with
  | none => false
  | some body =>
      (bodyKeys body).any (fun k =>
        k == "version_number" || k == "expectedVersion" || k == "version")

/-! ## Core data model

Modelled from the spec (section 3, DATA MODEL); the shrimp service that
implements it is not part of the source tree. -/

/-- Modelled from the spec: Task.status values
{pending, in_progress, completed, failed, cancelled}. -/
inductive TaskStatus where
  | pending
  | in_progress
  | completed
  | failed
  | cancelled
  deriving DecidableEq, Repr

/-- Modelled from the spec: todo status values
{pending, in_progress, completed}. -/
inductive TodoStatus where
  | pending
  | in_progress
  | completed
  deriving DecidableEq, Repr

/-- Modelled from the spec: todo priority values {low, medium, high}. -/
inductive TodoPriority where
  | low
  | medium
  | high
  deriving DecidableEq, Repr

/-- Modelled from the spec: a task-owned todo item
{content, status, priority}. -/
structure Todo where
  content : String
  status : TodoStatus
  priority : TodoPriority
  deriving DecidableEq, Repr

/-- Modelled from the spec: a related-file reference
{path, role, optional line range}. -/
structure RelatedFile where
  path : String
  role : String
  lineRange : Option (Nat × Nat)
  deriving DecidableEq, Repr

/-- Modelled from the spec: a Task record.  Entity ids are opaque and
partition-unique; they are modelled as naturals.  version_number is the
optimistic-lock token; created_at and updated_at are store-managed
timestamps (naturals). -/
structure Task where
  id : Nat
  name : String
  description : String
  status : TaskStatus
  dependencies : List Nat
  implementation_guide : String
  verification_criteria : String
  notes : String
  related_files : List RelatedFile
  todos : List Todo
  version_number : Nat
  created_at : Nat
  updated_at : Nat
  deriving DecidableEq, Repr

/-- Modelled from the spec: the patch an update carries; `none` leaves the
field untouched.  The store-managed fields (id, version_number,
created_at, updated_at) are not patchable. -/
structure TaskPatch where
  name : Option String := none
  description : Option String := none
  status : Option TaskStatus := none
  dependencies : Option (List Nat) := none
  implementation_guide : Option String := none
  verification_criteria : Option String := none
  notes : Option String := none
  related_files : Option (List RelatedFile) := none
  todos : Option (List Todo) := none
  deriving DecidableEq, Repr

/-- Modelled from the spec: applying a patch to a task replaces exactly the
patched fields and leaves id, version_number and the timestamps alone. -/
def applyPatch (p : TaskPatch) (t : Task) : Task :=
  { t with
    name := p.name.getD t.name
    description := p.description.getD t.description
    status := p.status.getD t.status
    dependencies := p.dependencies.getD t.dependencies
    implementation_guide := p.implementation_guide.getD t.implementation_guide
    verification_criteria := p.verification_criteria.getD t.verification_criteria
    notes := p.notes.getD t.notes
    related_files := p.related_files.getD t.related_files
    todos := p.todos.getD t.todos }

/-- Equality of the domain content of two tasks: every field except the
store-managed version_number and timestamps. -/
def contentEq (a b : Task) : Prop :=
  a.id = b.id ∧ a.name = b.name ∧ a.description = b.description ∧
  a.status = b.status ∧ a.dependencies = b.dependencies ∧
  a.implementation_guide = b.implementation_guide ∧
  a.verification_criteria = b.verification_criteria ∧ a.notes = b.notes ∧
  a.related_files = b.related_files ∧ a.todos = b.todos

instance (a b : Task) : Decidable (contentEq a b) := by
  unfold contentEq; infer_instance

/-! ## Entity Store

Modelled from the spec (section 4.2): generic keyed storage of tasks with
the optimistic-lock fields, keyed first by partition, then by entity id. -/

/-- Modelled from the spec: the persisted task collection, keyed first by
partition, then by entity id. -/
abbrev TaskStore := List (String × Task)

/-- Modelled from the spec: the store errors of the update/delete
contract. -/
inductive StoreError where
  | NotFound
  | Conflict
  deriving DecidableEq, Repr

/-- The stored entry for (partition, id), if any. -/
def findTaskEntry (ts : TaskStore) (p : String) (id : Nat) : Option (String × Task) :=
  ts.find? (fun q => q.1 == p && q.2.id == id)

/-- Modelled from the spec: `get(partition, id) -> T | NotFound`. -/
def getTask (ts : TaskStore) (p : String) (id : Nat) : Option Task :=
  (findTaskEntry ts p id).map (fun q => q.2)

/-- All tasks stored in one partition, in storage order. -/
def tasksIn (ts : TaskStore) (p : String) : List Task :=
  (ts.filter (fun q => q.1 == p)).map (fun q => q.2)

/-- Replaces every stored entry for (partition, id) by the given task. -/
def replaceTask (ts : TaskStore) (p : String) (id : Nat) (t' : Task) : TaskStore :=
  ts.map (fun q => if q.1 == p && q.2.id == id then (q.1, t') else q)

/-- The committed entity state of a successful update: the patch applied,
version_number incremented by exactly 1, updated_at refreshed. -/
def bumpApply (patch : TaskPatch) (t : Task) (now : Nat) : Task :=
  { applyPatch patch t with
    version_number := t.version_number + 1, updated_at := now }

/-- Modelled from the spec:
`update(partition, id, expectedVersion, patch) -> T' | Conflict | NotFound`.
Succeeds only if the stored version_number equals expectedVersion; on
success applies the patch, increments version_number by exactly 1 and
refreshes updated_at; the compare-and-swap on the stored version_number is
atomic. -/
def updateTask (ts : TaskStore) (p : String) (id : Nat) (expectedVersion : Nat)
    (patch : TaskPatch) (now : Nat) : Except StoreError (TaskStore × Task) :=
  match findTaskEntry ts p id with
  | none => .error .NotFound
  | some q =>
      if q.2.version_number = expectedVersion then
        .ok (replaceTask ts p id (bumpApply patch q.2 now), bumpApply patch q.2 now)
      else .error .Conflict

/-! ## Dependency Graph Validator

Modelled from the spec (section 4.3): the validator works on an explicit
graph snapshot (an arena of task-id to edge-list), substitutes the proposed
edge set for the task's current edges and runs a reachability check from
the proposed dependencies back to the task. -/

/-- An explicit dependency-graph snapshot: task id paired with its
dependency edge list. -/
abbrev DepGraph := List (Nat × List Nat)

/-- The edge list of a vertex in the snapshot ([] when absent). -/
def depsOf (g : DepGraph) (v : Nat) : List Nat :=
  match g.find? (fun e => e.1 == v) with
  | some e => e.2
  | none => []

/-- The dependency edge relation of a snapshot. -/
def Edge (g : DepGraph) (a b : Nat) : Prop := b ∈ depsOf g a

instance (g : DepGraph) (a b : Nat) : Decidable (Edge g a b) :=
  inferInstanceAs (Decidable (b ∈ depsOf g a))

/-- Transitive reachability along dependency edges. -/
def ReachesP (g : DepGraph) (a b : Nat) : Prop := Relation.ReflTransGen (Edge g) a b

/-- A snapshot has a cycle when some edge closes back on its source
through further edges (this includes self-references). -/
def HasCycle (g : DepGraph) : Prop :=
  ∃ a b, Edge g a b ∧ ReachesP g b a

/-- The graph snapshot of a partition's tasks. -/
def graphOf (l : List Task) : DepGraph :=
  l.map (fun t => (t.id, t.dependencies))

/-- The snapshot with the proposed edge set substituted for the task's
current edges. -/
def substGraph (g : DepGraph) (id : Nat) (proposed : List Nat) : DepGraph :=
  g.map (fun e => if e.1 == id then (e.1, proposed) else e)

/-- One breadth-first expansion of a frontier set: the set itself plus
every dependency of one of its members. -/
def stepSet (g : DepGraph) (s : List Nat) : List Nat :=
  (s ++ s.flatMap (fun v => depsOf g v)).dedup

/-- Iterated expansion of a source set. -/
def iterSet (g : DepGraph) (s : List Nat) : Nat → List Nat
  | 0 => s.dedup
  | n + 1 => stepSet g (iterSet g s n)

/-- Every vertex the expansion can ever mention: the sources plus every
dependency recorded anywhere in the snapshot. -/
def vertexPool (g : DepGraph) (s : List Nat) : List Nat :=
  (s ++ g.flatMap (fun e => e.2)).dedup

/-- Enough expansion steps to saturate: one more than the pool size. -/
def reachFuel (g : DepGraph) (s : List Nat) : Nat :=
  (vertexPool g s).length + 1

/-- Everything reachable from the source set. -/
def reachableSet (g : DepGraph) (s : List Nat) : List Nat :=
  iterSet g s (reachFuel g s)

/-- Decidable reachability check used by the validator: is the target
reachable from some source? -/
def reaches (g : DepGraph) (srcs : List Nat) (t : Nat) : Bool :=
  decide (t ∈ reachableSet g srcs)

/-- Modelled from the spec: the service-level error taxonomy relevant to
task mutations. -/
inductive SvcError where
  | NotFound
  | Conflict
  | CycleDetected
  | SelfReference
  | UnknownDependency
  deriving DecidableEq, Repr

/-- Modelled from the spec:
`validate(partition, taskId, proposedDependencies) -> Ok | CycleDetected |
SelfReference | UnknownDependency` (`none` encodes Ok).  Self-reference is
checked first, unknown dependency ids are rejected before the cycle check,
and the cycle check asks whether taskId is reachable from any of its own
proposed dependencies in the substituted snapshot. -/
def validateDeps (ts : List Task) (taskId : Nat) (proposed : List Nat) :
    Option SvcError :=
  if taskId ∈ proposed then some .SelfReference
  else if proposed.all (fun d => ts.any (fun t => t.id == d)) then
    if reaches (substGraph (graphOf ts) taskId proposed) proposed taskId then
      some .CycleDetected
    else none
  else some .UnknownDependency

/-! ## Version Ledger, Audit Log and the Task Service

Modelled from the spec (sections 2, 4.4, 4.5, 4.6): a mutating request
resolves its partition, passes the optimistic-lock check, is validated,
and commits the new entity state together with a Version Ledger snapshot
and an Audit Log entry as one unit; failures still append an audit entry
with outcome failure. -/

/-- Modelled from the spec: the operation kind recorded on snapshots and
audit entries: {create, update, delete, rollback}. -/
inductive OpKind where
  | create
  | update
  | delete
  | rollback
  deriving DecidableEq, Repr

/-- Modelled from the spec: the outcome recorded on an audit entry,
success or failure plus reason. -/
inductive Outcome where
  | success
  | failure (reason : String)
  deriving DecidableEq, Repr

/-- Modelled from the spec: a Version Ledger entry: entity id, partition
key, sequence number (the entity's version_number at the moment of the
operation), the full entity payload at that moment, operation kind, actor,
optional message and created_at. -/
structure Snapshot where
  partition : String
  entity_id : Nat
  sequence_no : Nat
  payload : Task
  operation : OpKind
  actor : String
  message : Option String
  created_at : Nat
  deriving DecidableEq, Repr

/-- Modelled from the spec: an Audit Log entry: partition key, entity
type, entity id, operation kind, actor, timestamp and outcome. -/
structure AuditEntry where
  partition : String
  entity_type : String
  entity_id : Nat
  operation : OpKind
  actor : String
  timestamp : Nat
  outcome : Outcome
  deriving DecidableEq, Repr

/-- Modelled from the spec: the persisted state: the task collection, the
append-only version collection (appended at the tail, so chronological)
and the append-only audit collection. -/
structure SState where
  tasks : TaskStore
  ledger : List Snapshot
  audit : List AuditEntry
  deriving DecidableEq, Repr

/-- The snapshot appended for a committed mutation: sequence number and
payload taken from the entity at the moment of the operation. -/
def mkSnapshot (p : String) (t : Task) (k : OpKind) (actor : String) (now : Nat) :
    Snapshot :=
  { partition := p, entity_id := t.id, sequence_no := t.version_number,
    payload := t, operation := k, actor := actor, message := none,
    created_at := now }

/-- The audit entry appended for a mutation attempt. -/
def mkAudit (p : String) (id : Nat) (k : OpKind) (actor : String) (now : Nat)
    (o : Outcome) : AuditEntry :=
  { partition := p, entity_type := "task", entity_id := id, operation := k,
    actor := actor, timestamp := now, outcome := o }

/-- Modelled from the spec: a failed mutation leaves entities and ledger
untouched and still appends an audit entry with outcome failure. -/
def recordFailure (s : SState) (p : String) (id : Nat) (k : OpKind)
    (actor : String) (now : Nat) (reason : String) : SState :=
  { s with audit := s.audit ++ [mkAudit p id k actor now (.failure reason)] }

/-- The audit failure reason recorded for each service error. -/
def errReason : SvcError → String
  | .NotFound => "not_found"
  | .Conflict => "version_conflict"
  | .CycleDetected => "cycle_detected"
  | .SelfReference => "self_reference"
  | .UnknownDependency => "unknown_dependency"

/-- Modelled from the spec: the service update: optimistic-lock check via
the Entity Store's compare-and-swap, dependency validation inside the same
transaction (so a validation failure aborts before anything commits), then
the entity write, the ledger append and the audit append as one unit.  The
operation kind parameter lets revert tag the same path as rollback. -/
def svcUpdateTask (s : SState) (p : String) (id : Nat) (expectedVersion : Nat)
    (patch : TaskPatch) (kind : OpKind) (actor : String) (now : Nat) :
    SState × Except SvcError Task :=
  match updateTask s.tasks p id expectedVersion patch now with
  | .error .NotFound =>
      (recordFailure s p id kind actor now (errReason .NotFound), .error .NotFound)
  | .error .Conflict =>
      (recordFailure s p id kind actor now (errReason .Conflict), .error .Conflict)
  | .ok (ts', t') =>
      match validateDeps (tasksIn s.tasks p) id t'.dependencies with
      | some e => (recordFailure s p id kind actor now (errReason e), .error e)
      | none =>
          ({ tasks := ts',
             ledger := s.ledger ++ [mkSnapshot p t' kind actor now],
             audit := s.audit ++ [mkAudit p id kind actor now .success] },
           .ok t')

/-- Modelled from the spec: inserting a fresh entity: Conflict if the id
already exists in the partition, dependency validation over the partition
graph extended with the new task, then commit plus ledger and audit
appends.  Used by create (kind create) and by a revert that re-creates a
deleted entity (kind rollback). -/
def svcInsertTask (s : SState) (p : String) (t0 : Task) (kind : OpKind)
    (actor : String) (now : Nat) : SState × Except SvcError Task :=
  match getTask s.tasks p t0.id with
  | some _ =>
      (recordFailure s p t0.id kind actor now (errReason .Conflict), .error .Conflict)
  | none =>
      match validateDeps (tasksIn s.tasks p ++ [t0]) t0.id t0.dependencies with
      | some e => (recordFailure s p t0.id kind actor now (errReason e), .error e)
      | none =>
          ({ tasks := s.tasks ++ [(p, t0)],
             ledger := s.ledger ++ [mkSnapshot p t0 kind actor now],
             audit := s.audit ++ [mkAudit p t0.id kind actor now .success] },
           .ok t0)

/-- Modelled from the spec: a freshly created task: caller-supplied id and
domain fields, version_number 0, store-set timestamps, status pending. -/
def mkNewTask (id : Nat) (name description ig vc : String) (deps : List Nat)
    (now : Nat) : Task :=
  { id := id, name := name, description := description, status := .pending,
    dependencies := deps, implementation_guide := ig,
    verification_criteria := vc, notes := "", related_files := [], todos := [],
    version_number := 0, created_at := now, updated_at := now }

/-- Modelled from the spec: `create(partition, T)`: assigns version 0 and
timestamps, Conflict if the id already exists in the partition. -/
def svcCreateTask (s : SState) (p : String) (id : Nat)
    (name description ig vc : String) (deps : List Nat) (actor : String)
    (now : Nat) : SState × Except SvcError Task :=
  svcInsertTask s p (mkNewTask id name description ig vc deps now) .create actor now

/-- Modelled from the spec:
`delete(partition, id, expectedVersion) -> Ok | Conflict | NotFound`:
removes the entity, appends a final delete snapshot and an audit entry,
and does not erase prior snapshots. -/
def svcDeleteTask (s : SState) (p : String) (id : Nat) (expectedVersion : Nat)
    (actor : String) (now : Nat) : SState × Except SvcError Task :=
  match getTask s.tasks p id with
  | none =>
      (recordFailure s p id .delete actor now (errReason .NotFound), .error .NotFound)
  | some t =>
      if t.version_number = expectedVersion then
        ({ tasks := s.tasks.filter (fun q => !(q.1 == p && q.2.id == id)),
           ledger := s.ledger ++ [mkSnapshot p t .delete actor now],
           audit := s.audit ++ [mkAudit p id .delete actor now .success] },
         .ok t)
      else
        (recordFailure s p id .delete actor now (errReason .Conflict), .error .Conflict)

/-- Modelled from the spec: `get(partition, entityId, sequenceNo)` on the
Version Ledger; sequence numbers are monotonic per entity and never
reused, so the newest match is the match. -/
def findSnapshot (l : List Snapshot) (p : String) (id : Nat) (seqNo : Nat) :
    Option Snapshot :=
  l.reverse.find? (fun sn => sn.partition == p && sn.entity_id == id && sn.sequence_no == seqNo)

/-- Modelled from the spec: the snapshot's payload used as the patch of
the revert update: every domain field of the payload. -/
def patchOfPayload (payload : Task) : TaskPatch :=
  { name := some payload.name, description := some payload.description,
    status := some payload.status, dependencies := some payload.dependencies,
    implementation_guide := some payload.implementation_guide,
    verification_criteria := some payload.verification_criteria,
    notes := some payload.notes, related_files := some payload.related_files,
    todos := some payload.todos }

/-- Modelled from the spec: revert reads the target snapshot and performs
a normal update (or a create, if the entity no longer exists) using the
snapshot's payload as the patch, tagged with operation kind rollback; it
never truncates or mutates the ledger. -/
def svcRevertTask (s : SState) (p : String) (id : Nat) (seqNo : Nat)
    (actor : String) (now : Nat) : SState × Except SvcError Task :=
  match findSnapshot s.ledger p id seqNo with
  | none =>
      (recordFailure s p id .rollback actor now (errReason .NotFound), .error .NotFound)
  | some snap =>
      match getTask s.tasks p id with
      | some t =>
          svcUpdateTask s p id t.version_number (patchOfPayload snap.payload)
            .rollback actor now
      | none =>
          svcInsertTask s p
            { snap.payload with version_number := 0, created_at := now, updated_at := now }
            .rollback actor now

/-- Modelled from the spec (section 4.1): deleting a partition removes its
entities and version ledger entries but preserves audit entries. -/
def deletePartition (s : SState) (p : String) : SState :=
  { tasks := s.tasks.filter (fun q => !(q.1 == p)),
    ledger := s.ledger.filter (fun sn => !(sn.partition == p)),
    audit := s.audit }

/-- Modelled from the spec: `query(partition, filters)` on the Audit Log:
the partition's entries in timestamp (append) order. -/
def queryAudit (s : SState) (p : String) : List AuditEntry :=
  s.audit.filter (fun a => a.partition == p)

/-- Modelled from the spec: `list(partition, entityId)` on the Version
Ledger: the entity's snapshots, newest first. -/
def listVersions (s : SState) (p : String) (id : Nat) : List Snapshot :=
  (s.ledger.filter (fun sn => sn.partition == p && sn.entity_id == id)).reverse

/-- A task mutation as issued against the service. -/
inductive SvcOp where
  | create (p : String) (id : Nat) (name description ig vc : String)
      (deps : List Nat) (actor : String) (now : Nat)
  | update (p : String) (id : Nat) (expectedVersion : Nat) (patch : TaskPatch)
      (actor : String) (now : Nat)
  | delete (p : String) (id : Nat) (expectedVersion : Nat) (actor : String) (now : Nat)
  | revert (p : String) (id : Nat) (seqNo : Nat) (actor : String) (now : Nat)

/-- Runs one mutation, returning the new state and the caller-visible
result. -/
def runOp (s : SState) : SvcOp → SState × Except SvcError Task
  | .create p id name description ig vc deps actor now =>
      svcCreateTask s p id name description ig vc deps actor now
  | .update p id ev patch actor now => svcUpdateTask s p id ev patch .update actor now
  | .delete p id ev actor now => svcDeleteTask s p id ev actor now
  | .revert p id seqNo actor now => svcRevertTask s p id seqNo actor now

/-- Runs a sequence of mutations. -/
def applyOps (s : SState) (ops : List SvcOp) : SState :=
  ops.foldl (fun st op => (runOp st op).1) s

/-- The dependency invariant: in every partition the dependency edges form
a DAG. -/
def PartitionAcyclic (s : SState) : Prop :=
  ∀ p, ¬ HasCycle (graphOf (tasksIn s.tasks p))

/-- The empty deployment state. -/
def emptyState : SState := { tasks := [], ledger := [], audit := [] }

/-! ## Concrete example data -/

/-- A concrete create-form state with non-blank required fields. -/
def exForm : CreateTaskModal.FormState :=
  { taskName := " Build core ", description := "the core",
    implementationGuide := "do it", verificationCriteria := "tests pass",
    selectedDependencies := ["t9"] }

/-- A concrete edit-form state as EditTaskModal holds it. -/
def exEditData : EditTaskModal.TaskData :=
  { name := "Task A", description := "desc", status := "in_progress",
    dependencies := ["t2"], notes := "", implementation_guide := "ig",
    verification_criteria := "vc", related_files := 0 }

/-- The concrete PATCH request the console submits for exEditData. -/
def exPatchRequest : HttpRequest :=
  { method := "PATCH", url := "/api/default/tasks/t1",
    headers := [("Content-Type", "application/json"), ("X-Project-ID", "default")],
    body := some (EditTaskModal.patchBody exEditData) }

/-- A concrete stored task (partition default, id 1, version 0). -/
def exTaskA : Task := mkNewTask 1 "A" "first" "ig" "vc" [] 10

/-- A concrete one-task store. -/
def exStore : TaskStore := [("default", exTaskA)]

/-- The state after creating tasks 1 and 2 in the default partition. -/
def exStateAB : SState :=
  applyOps emptyState
    [.create "default" 1 "A" "dA" "igA" "vcA" [] "u" 10,
     .create "default" 2 "B" "dB" "igB" "vcB" [] "u" 11]

/-- The state after additionally making task 2 depend on task 1. -/
def exStateDep : SState :=
  (svcUpdateTask exStateAB "default" 2 0 { dependencies := some [1] } .update "u" 12).1

/-- The create snapshot of task 2 as the concrete run recorded it. -/
def exSnapB : Snapshot :=
  mkSnapshot "default" (mkNewTask 2 "B" "dB" "igB" "vcB" [] 11) .create "u" 11

/-- The mutation sequence that creates tasks 1 and 2 and makes 2 depend
on 1. -/
def exOps : List SvcOp :=
  [.create "default" 1 "A" "dA" "igA" "vcA" [] "u" 10,
   .create "default" 2 "B" "dB" "igB" "vcB" [] "u" 11,
   .update "default" 2 0 { dependencies := some [1] } "u" 12]

/-! ## Store lemmas -/

theorem applyPatch_id (p : TaskPatch) (t : Task) : (applyPatch p t).id = t.id := rfl

theorem applyPatch_version (p : TaskPatch) (t : Task) :
    (applyPatch p t).version_number = t.version_number := rfl

theorem findTaskEntry_mem_props {ts : TaskStore} {p : String} {id : Nat}
    {q : String × Task} (h : findTaskEntry ts p id = some q) :
    q.1 = p ∧ q.2.id = id := by
  have := List.find?_some h
  simp only [Bool.and_eq_true, beq_iff_eq] at this
  exact this

theorem findTaskEntry_replace (ts : TaskStore) (p : String) (id : Nat)
    {t' : Task} (hid : t'.id = id) :
    findTaskEntry (replaceTask ts p id t') p id =
      (findTaskEntry ts p id).map (fun q => (q.1, t')) := by
  induction ts with
  | nil => rfl
  | cons q rest ih =>
      by_cases h : (q.1 == p && q.2.id == id) = true
      · have hpred : ((q.1, t').1 == p && (q.1, t').2.id == id) = true := by
          simp only [Bool.and_eq_true, beq_iff_eq] at h ⊢
          exact ⟨h.1, hid⟩
        simp only [replaceTask, List.map_cons, if_pos h, findTaskEntry]
        rw [@List.find?_cons_of_pos _ (fun r => r.1 == p && r.2.id == id) (q.1, t') _ hpred,
          @List.find?_cons_of_pos _ (fun r => r.1 == p && r.2.id == id) q rest h]
        rfl
      · simp only [replaceTask, List.map_cons, if_neg h, findTaskEntry]
        rw [@List.find?_cons_of_neg _ (fun r => r.1 == p && r.2.id == id) q _ h,
          @List.find?_cons_of_neg _ (fun r => r.1 == p && r.2.id == id) q rest h]
        simpa [findTaskEntry, replaceTask] using ih

theorem getTask_replace_self {ts : TaskStore} {p : String} {id : Nat}
    {q : String × Task} {t' : Task} (h : findTaskEntry ts p id = some q)
    (hid : t'.id = id) :
    getTask (replaceTask ts p id t') p id = some t' := by
  simp [getTask, findTaskEntry_replace ts p id hid, h]

/-- C1.  Modelled from the spec: the Entity Store update succeeds exactly
when the entity exists with stored version_number equal to
expectedVersion; on success the patch is applied, version_number grows by
exactly 1 and updated_at is refreshed; a version mismatch yields Conflict
and an unknown id yields NotFound. -/
theorem c1_store_update_optimistic_gate (ts : TaskStore) (p : String)
    (id expectedVersion : Nat) (patch : TaskPatch) (now : Nat) :
    ((∃ t, getTask ts p id = some t ∧ t.version_number = expectedVersion) ↔
      ∃ r, updateTask ts p id expectedVersion patch now = .ok r) ∧
    (∀ ts' t', updateTask ts p id expectedVersion patch now = .ok (ts', t') →
      ∃ t, getTask ts p id = some t ∧ t.version_number = expectedVersion ∧
        t' = { applyPatch patch t with
               version_number := t.version_number + 1, updated_at := now } ∧
        getTask ts' p id = some t') ∧
    (∀ t, getTask ts p id = some t → t.version_number ≠ expectedVersion →
      updateTask ts p id expectedVersion patch now = .error .Conflict) ∧
    (getTask ts p id = none →
      updateTask ts p id expectedVersion patch now = .error .NotFound) := by
  refine ⟨?_, ?_, ?_, ?_⟩
  · constructor
    · rintro ⟨t, ht, hv⟩
      rcases hfe : findTaskEntry ts p id with _ | q
      · simp [getTask, hfe] at ht
      · have hq : q.2 = t := by simpa [getTask, hfe] using ht
        have hv' : q.2.version_number = expectedVersion := by rw [hq, hv]
        simp only [updateTask, hfe]
        rw [if_pos hv']
        exact ⟨_, rfl⟩
    · rintro ⟨r, hr⟩
      rcases hfe : findTaskEntry ts p id with _ | q
      · simp [updateTask, hfe] at hr
      · by_cases hv : q.2.version_number = expectedVersion
        · exact ⟨q.2, by simp [getTask, hfe], hv⟩
        · simp only [updateTask, hfe] at hr
          rw [if_neg hv] at hr
          exact absurd hr (by simp)
  · intro ts' t' h
    rcases hfe : findTaskEntry ts p id with _ | q
    · simp [updateTask, hfe] at h
    · by_cases hv : q.2.version_number = expectedVersion
      · simp only [updateTask, hfe] at h
        rw [if_pos hv] at h
        simp only [Except.ok.injEq, Prod.mk.injEq] at h
        obtain ⟨hts', ht'⟩ := h
        have hid : t'.id = id := by
          rw [← ht']
          simpa [applyPatch_id] using (findTaskEntry_mem_props hfe).2
        refine ⟨q.2, by simp [getTask, hfe], hv, ht'.symm, ?_⟩
        rw [← hts', ht']
        exact getTask_replace_self hfe hid
      · simp only [updateTask, hfe] at h
        rw [if_neg hv] at h
        exact absurd h (by simp)
  · intro t ht hv
    rcases hfe : findTaskEntry ts p id with _ | q
    · simp [getTask, hfe] at ht
    · have hq : q.2 = t := by simpa [getTask, hfe] using ht
      have hv' : ¬ q.2.version_number = expectedVersion := by rw [hq]; exact hv
      simp only [updateTask, hfe]
      rw [if_neg hv']
  · intro ht
    rcases hfe : findTaskEntry ts p id with _ | q
    · simp [updateTask, hfe]
    · simp [getTask, hfe] at ht

/-- Witness for C1 at a concrete store: the optimistic gate both ways on
the one-task store. -/
theorem c1_witness :
    (∃ r, updateTask exStore "default" 1 0 { status := some .in_progress } 20 = .ok r) ∧
    updateTask exStore "default" 1 7 { status := some .in_progress } 20 =
      .error .Conflict ∧
    updateTask exStore "default" 9 0 { status := some .in_progress } 20 =
      .error .NotFound := by
  have h := c1_store_update_optimistic_gate exStore "default" 1 0
    { status := some .in_progress } 20
  have h7 := c1_store_update_optimistic_gate exStore "default" 1 7
    { status := some .in_progress } 20
  have h9 := c1_store_update_optimistic_gate exStore "default" 9 0
    { status := some .in_progress } 20
  refine ⟨h.1.mp ⟨exTaskA, by decide, by decide⟩, ?_, ?_⟩
  · exact h7.2.2.1 exTaskA (by decide) (by decide)
  · exact h9.2.2.2 (by decide)

/-- C2.  Modelled from the spec: two updates racing on the same
(partition, id, expectedVersion) triple, applied in either interleaving of
the atomic compare-and-swap, resolve so that the first one commits, the
second receives Conflict, and the stored version_number ends at
initial + 1 (never initial + 2).  The patches and timestamps of the two
racers are arbitrary, so the statement covers both orders of the race. -/
theorem c2_racing_updates_exactly_one (ts : TaskStore) (p : String) (id : Nat)
    (t : Task) (p1 p2 : TaskPatch) (n1 n2 : Nat)
    (h : getTask ts p id = some t) :
    ∃ ts1 t1,
      updateTask ts p id t.version_number p1 n1 = .ok (ts1, t1) ∧
      t1.version_number = t.version_number + 1 ∧
      updateTask ts1 p id t.version_number p2 n2 = .error .Conflict ∧
      getTask ts1 p id = some t1 := by
  rcases hfe : findTaskEntry ts p id with _ | q
  · simp [getTask, hfe] at h
  · have hq : q.2 = t := by simpa [getTask, hfe] using h
    have hid : q.2.id = id := (findTaskEntry_mem_props hfe).2
    have ht1id : (bumpApply p1 q.2 n1).id = id := by
      simpa [bumpApply, applyPatch_id] using hid
    have hfirst : updateTask ts p id t.version_number p1 n1 =
        .ok (replaceTask ts p id (bumpApply p1 q.2 n1), bumpApply p1 q.2 n1) := by
      simp only [updateTask, hfe]
      rw [if_pos (by rw [hq])]
    have hget1 : getTask (replaceTask ts p id (bumpApply p1 q.2 n1)) p id =
        some (bumpApply p1 q.2 n1) := getTask_replace_self hfe ht1id
    refine ⟨_, _, hfirst, by simp [bumpApply, hq], ?_, hget1⟩
    rcases hfe1 : findTaskEntry (replaceTask ts p id (bumpApply p1 q.2 n1)) p id
        with _ | q1
    · simp [getTask, hfe1] at hget1
    · have hq1 : q1.2 = bumpApply p1 q.2 n1 := by simpa [getTask, hfe1] using hget1
      have hv1 : ¬ q1.2.version_number = t.version_number := by
        simp [hq1, bumpApply, hq]
      simp only [updateTask, hfe1]
      rw [if_neg hv1]

/-- Witness for C2: the race on the concrete one-task store. -/
theorem c2_witness :
    ∃ ts1 t1,
      updateTask exStore "default" 1 0 { status := some .in_progress } 20 =
        .ok (ts1, t1) ∧
      t1.version_number = 1 ∧
      updateTask ts1 "default" 1 0 { status := some .completed } 21 =
        .error .Conflict ∧
      getTask ts1 "default" 1 = some t1 :=
  c2_racing_updates_exactly_one exStore "default" 1 exTaskA
    { status := some .in_progress } { status := some .completed } 20 21 (by decide)

/-- C9.  Modelled from the spec: the store does not gate Task.status
transitions: whatever status a stored task currently has, an update
setting any of the five statuses succeeds whenever the optimistic-version
check passes, and the stored status becomes the requested one.  (The
console's EditTaskModal, lines 166-178, accordingly offers all five
statuses for manual correction.) -/
theorem c9_status_not_gated (ts : TaskStore) (p : String) (id : Nat)
    (t : Task) (st1 st2 : TaskStatus) (now : Nat)
    (h : getTask ts p id = some t) (hst : t.status = st1) :
    ∃ ts' t', updateTask ts p id t.version_number { status := some st2 } now =
        .ok (ts', t') ∧
      t'.status = st2 ∧ t'.version_number = t.version_number + 1 := by
  rcases hfe : findTaskEntry ts p id with _ | q
  · simp [getTask, hfe] at h
  · have hq : q.2 = t := by simpa [getTask, hfe] using h
    have hv' : q.2.version_number = t.version_number := by rw [hq]
    simp only [updateTask, hfe]
    rw [if_pos hv']
    refine ⟨_, _, rfl, ?_, ?_⟩
    · simp [bumpApply, applyPatch]
    · simp [bumpApply, hv']

/-- Witness for C9: a completed task moved back to pending by a plain
update on the concrete store. -/
theorem c9_witness :
    ∃ ts' t', updateTask exStore "default" 1 0 { status := some .pending } 20 =
        .ok (ts', t') ∧
      t'.status = .pending ∧ t'.version_number = 1 :=
  c9_status_not_gated exStore "default" 1 exTaskA .pending .pending 20
    (by decide) (by decide)

/-- C10.  From src/unnamed/part_001 (CreateTaskModal.handleSubmit, lines
53-105): whenever the four required fields are non-blank after trimming,
the submitted POST body fixes status to "pending", so every task created
through the console starts pending. -/
theorem c10_create_form_status_pending (f : CreateTaskModal.FormState)
    (h1 : jsTrim f.taskName ≠ "") (h2 : jsTrim f.description ≠ "")
    (h3 : jsTrim f.implementationGuide ≠ "") (h4 : jsTrim f.verificationCriteria ≠ "") :
    ∃ body, CreateTaskModal.handleSubmitBody f = some body ∧
      CreateTaskModal.statusField body = some (.str "pending") := by
  simp only [CreateTaskModal.handleSubmitBody, if_neg h1, if_neg h2, if_neg h3,
    if_neg h4]
  exact ⟨_, rfl, rfl⟩

/-- Witness for C10 on the concrete form state. -/
theorem c10_witness :
    ∃ body, CreateTaskModal.handleSubmitBody exForm = some body ∧
      CreateTaskModal.statusField body = some (.str "pending") :=
  c10_create_form_status_pending exForm (by decide) (by decide) (by decide)
    (by decide)

/-- C8 counterexample.  From EditTaskModal.js (handleSubmit, lines 57-88)
and TaskTableView.js (handleDeleteTask, lines 32-60): a concrete PATCH the
console submits carries no version token of any spelling, and the
console's DELETE carries no body at all, so these externally issued task
mutations do not carry the caller's last-known version_number. -/
theorem c8_claim_counterexample :
    (∃ r, EditTaskModal.submitRequest "default" "t1" exEditData = some r ∧
      carriesVersionToken r = false) ∧
    (TaskTableView.deleteRequest "default" "t1").body = none ∧
    carriesVersionToken (TaskTableView.deleteRequest "default" "t1") = false := by
  refine ⟨⟨exPatchRequest, ?_, ?_⟩, rfl, rfl⟩
  · decide
  · decide

/-- C8 as amended.  The console's PATCH body consists of exactly the eight
editable fields, never any version token, and its DELETE request has no
body; the optimistic gate lives only in the (spec-modelled) store, which
answers Conflict whenever expectedVersion differs from the stored
version_number. -/
theorem c8_console_mutations_without_version_token :
    (∀ pid tid d r, EditTaskModal.submitRequest pid tid d = some r →
      ∃ body, r.body = some body ∧
        bodyKeys body = ["name", "description", "status", "dependencies",
          "notes", "implementation_guide", "verification_criteria",
          "related_files"] ∧
        carriesVersionToken r = false) ∧
    (∀ pid tid, (TaskTableView.deleteRequest pid tid).body = none) ∧
    (∀ ts p id expectedVersion patch now t, getTask ts p id = some t →
      t.version_number ≠ expectedVersion →
      updateTask ts p id expectedVersion patch now = .error .Conflict) := by
  refine ⟨?_, fun _ _ => rfl, ?_⟩
  · intro pid tid d r h
    by_cases hb : jsTrim d.name = ""
    · simp [EditTaskModal.submitRequest, hb] at h
    · simp only [EditTaskModal.submitRequest, if_neg hb, Option.some.injEq] at h
      subst h
      exact ⟨_, rfl, rfl, rfl⟩
  · intro ts p id expectedVersion patch now t ht hv
    exact (c1_store_update_optimistic_gate ts p id expectedVersion patch now).2.2.1
      t ht hv

/-- Witness for C8 as amended, at the concrete edit data and store. -/
theorem c8_witness :
    (∃ body, ∃ r, EditTaskModal.submitRequest "default" "t1" exEditData = some r ∧
      r.body = some body ∧ carriesVersionToken r = false) ∧
    updateTask exStore "default" 1 5 { status := some .failed } 30 =
      .error .Conflict := by
  have h := c8_console_mutations_without_version_token
  constructor
  · have hr : EditTaskModal.submitRequest "default" "t1" exEditData =
        some exPatchRequest := by decide
    rcases h.1 "default" "t1" exEditData exPatchRequest hr with ⟨body, hb, _, hcv⟩
    exact ⟨body, exPatchRequest, hr, hb, hcv⟩
  · exact h.2.2 exStore "default" 1 5 { status := some .failed } 30 exTaskA
      (by decide) (by decide)

/-! ## Correctness of the reachability check -/

theorem mem_stepSet {g : DepGraph} {s : List Nat} {x : Nat} :
    x ∈ stepSet g s ↔ x ∈ s ∨ ∃ v ∈ s, x ∈ depsOf g v := by
  simp [stepSet, List.mem_dedup, List.mem_append, List.mem_flatMap]

theorem subset_stepSet {g : DepGraph} {s : List Nat} : ∀ x ∈ s, x ∈ stepSet g s :=
  fun x hx => mem_stepSet.mpr (Or.inl hx)

theorem stepSet_mono {g : DepGraph} {s t : List Nat} (h : ∀ x ∈ s, x ∈ t) :
    ∀ x ∈ stepSet g s, x ∈ stepSet g t := by
  intro x hx
  rcases mem_stepSet.mp hx with hx | ⟨v, hv, hd⟩
  · exact mem_stepSet.mpr (Or.inl (h x hx))
  · exact mem_stepSet.mpr (Or.inr ⟨v, h v hv, hd⟩)

theorem iterSet_subset_succ {g : DepGraph} {s : List Nat} (n : Nat) :
    ∀ x ∈ iterSet g s n, x ∈ iterSet g s (n + 1) :=
  fun x hx => subset_stepSet x hx

theorem iterSet_mono_fuel {g : DepGraph} {s : List Nat} {m n : Nat} (h : m ≤ n) :
    ∀ x ∈ iterSet g s m, x ∈ iterSet g s n := by
  induction h with
  | refl => exact fun x hx => hx
  | step _ ih => exact fun x hx => iterSet_subset_succ _ x (ih x hx)

theorem iterSet_sound {g : DepGraph} {s : List Nat} :
    ∀ n, ∀ x ∈ iterSet g s n, ∃ a ∈ s, ReachesP g a x := by
  intro n
  induction n with
  | zero =>
      intro x hx
      exact ⟨x, List.mem_dedup.mp hx, Relation.ReflTransGen.refl⟩
  | succ n ih =>
      intro x hx
      rcases mem_stepSet.mp hx with hx | ⟨v, hv, hd⟩
      · exact ih x hx
      · rcases ih v hv with ⟨a, ha, hr⟩
        exact ⟨a, ha, hr.tail hd⟩

theorem depsOf_subset_pool {g : DepGraph} {v x : Nat} (h : x ∈ depsOf g v)
    (s : List Nat) : x ∈ vertexPool g s := by
  simp only [vertexPool, List.mem_dedup, List.mem_append, List.mem_flatMap]
  unfold depsOf at h
  rcases hf : g.find? (fun e => e.1 == v) with _ | e
  · rw [hf] at h
    simp at h
  · rw [hf] at h
    exact Or.inr ⟨e, List.mem_of_find?_eq_some hf, h⟩

theorem iterSet_subset_pool {g : DepGraph} {s : List Nat} :
    ∀ n, ∀ x ∈ iterSet g s n, x ∈ vertexPool g s := by
  intro n
  induction n with
  | zero =>
      intro x hx
      simp only [vertexPool, List.mem_dedup, List.mem_append]
      exact Or.inl (List.mem_dedup.mp hx)
  | succ n ih =>
      intro x hx
      rcases mem_stepSet.mp hx with hx | ⟨v, hv, hd⟩
      · exact ih x hx
      · exact depsOf_subset_pool hd s

theorem iterSet_card_grow {g : DepGraph} {s : List Nat} {n : Nat} {x : Nat}
    (hx : x ∈ iterSet g s (n + 1)) (hnx : x ∉ iterSet g s n) :
    (iterSet g s n).toFinset.card < (iterSet g s (n + 1)).toFinset.card := by
  apply Finset.card_lt_card
  rw [Finset.ssubset_def]
  constructor
  · intro y hy
    rw [List.mem_toFinset] at hy ⊢
    exact iterSet_subset_succ n y hy
  · intro hsub
    exact hnx (List.mem_toFinset.mp (hsub (List.mem_toFinset.mpr hx)))

theorem iterSet_card_chain {g : DepGraph} {s : List Nat} :
    ∀ N, (∀ n, n < N → ∃ x, x ∈ iterSet g s (n + 1) ∧ x ∉ iterSet g s n) →
      N ≤ (iterSet g s N).toFinset.card := by
  intro N
  induction N with
  | zero => exact fun _ => Nat.zero_le _
  | succ N ih =>
      intro h
      have h1 := ih (fun n hn => h n (Nat.lt_succ_of_lt hn))
      rcases h N (Nat.lt_succ_self N) with ⟨x, hx, hnx⟩
      exact Nat.succ_le_of_lt (Nat.lt_of_le_of_lt h1 (iterSet_card_grow hx hnx))

theorem exists_saturated (g : DepGraph) (s : List Nat) :
    ∃ n, n < reachFuel g s ∧ ∀ x ∈ stepSet g (iterSet g s n), x ∈ iterSet g s n := by
  by_contra hc
  push_neg at hc
  have hgrow : ∀ n, n < reachFuel g s →
      ∃ x, x ∈ iterSet g s (n + 1) ∧ x ∉ iterSet g s n := by
    intro n hn
    rcases hc n hn with ⟨x, hx, hnx⟩
    exact ⟨x, hx, hnx⟩
  have hbound := iterSet_card_chain (reachFuel g s) hgrow
  have hpool : (iterSet g s (reachFuel g s)).toFinset.card ≤ (vertexPool g s).length := by
    calc (iterSet g s (reachFuel g s)).toFinset.card
        ≤ (vertexPool g s).toFinset.card := by
          apply Finset.card_le_card
          intro y hy
          rw [List.mem_toFinset] at hy ⊢
          exact iterSet_subset_pool _ y hy
      _ ≤ (vertexPool g s).length := List.toFinset_card_le _
  have : reachFuel g s = (vertexPool g s).length + 1 := rfl
  omega

theorem reachableSet_closed {g : DepGraph} {s : List Nat} {x y : Nat}
    (hx : x ∈ reachableSet g s) (hxy : Edge g x y) : y ∈ reachableSet g s := by
  rcases exists_saturated g s with ⟨n, hn, hsat⟩
  have hsub : ∀ m, n ≤ m → ∀ z ∈ iterSet g s m, z ∈ iterSet g s n := by
    intro m hm
    induction hm with
    | refl => exact fun z hz => hz
    | step _ ih => exact fun z hz => hsat z (stepSet_mono ih z hz)
  have hxn : x ∈ iterSet g s n := hsub _ (Nat.le_of_lt hn) x hx
  have hy : y ∈ iterSet g s n := hsat y (mem_stepSet.mpr (Or.inr ⟨x, hxn, hxy⟩))
  exact iterSet_mono_fuel (Nat.le_of_lt hn) y hy

theorem reaches_complete {g : DepGraph} {srcs : List Nat} {a t : Nat}
    (ha : a ∈ srcs) (h : ReachesP g a t) : t ∈ reachableSet g srcs := by
  induction h with
  | refl => exact iterSet_mono_fuel (Nat.zero_le _) a (List.mem_dedup.mpr ha)
  | tail _ hbc ih => exact reachableSet_closed ih hbc

theorem reaches_iff_exists (g : DepGraph) (srcs : List Nat) (t : Nat) :
    reaches g srcs t = true ↔ ∃ a ∈ srcs, ReachesP g a t := by
  unfold reaches
  rw [decide_eq_true_iff]
  constructor
  · intro h
    exact iterSet_sound _ t h
  · rintro ⟨a, ha, hr⟩
    exact reaches_complete ha hr

/-! ## Edge substitution and cycle analysis -/

theorem find?_key_subst (g : DepGraph) (id : Nat) (nd : List Nat) (v : Nat) :
    (substGraph g id nd).find? (fun e => e.1 == v) =
      (g.find? (fun e => e.1 == v)).map
        (fun e => if (e.1 == id) = true then (e.1, nd) else e) := by
  unfold substGraph
  rw [List.find?_map]
  have hcomp : ((fun e : Nat × List Nat => e.1 == v) ∘
      (fun e : Nat × List Nat => if (e.1 == id) = true then (e.1, nd) else e)) =
      (fun e : Nat × List Nat => e.1 == v) := by
    funext e
    by_cases he : (e.1 == id) = true <;> simp [he, Function.comp]
  rw [hcomp]

theorem depsOf_subst_ne {g : DepGraph} {id v : Nat} (nd : List Nat) (h : v ≠ id) :
    depsOf (substGraph g id nd) v = depsOf g v := by
  unfold depsOf
  rw [find?_key_subst]
  rcases hf : g.find? (fun e => e.1 == v) with _ | e
  · rw [hf]
    rfl
  · rw [hf]
    have hkey : e.1 = v := by simpa using List.find?_some hf
    have hne : ¬ (e.1 == id) = true := by
      simp only [beq_iff_eq, hkey]
      exact h
    show (if (e.1 == id) = true then (e.1, nd) else e).2 = e.2
    rw [if_neg hne]

theorem depsOf_subst_self {g : DepGraph} {id : Nat} (nd : List Nat)
    (h : ∃ e ∈ g, e.1 = id) : depsOf (substGraph g id nd) id = nd := by
  unfold depsOf
  rw [find?_key_subst]
  rcases hf : g.find? (fun e => e.1 == id) with _ | e
  · rw [List.find?_eq_none] at hf
    rcases h with ⟨e, he, hkey⟩
    exact absurd (by simp [hkey]) (hf e he)
  · rw [hf]
    have hkey := List.find?_some hf
    show (if (e.1 == id) = true then (e.1, nd) else e).2 = nd
    rw [if_pos hkey]

theorem avoid_edge_new {g g' : DepGraph} {id : Nat}
    (hne : ∀ u, u ≠ id → depsOf g' u = depsOf g u) {a b : Nat}
    (h : Edge g a b ∧ a ≠ id) : Edge g' a b := by
  unfold Edge at *
  rw [hne a h.2]
  exact h.1

theorem reflTransGen_subst_cases {g g' : DepGraph} {id : Nat} {nd : List Nat}
    (hne : ∀ u, u ≠ id → depsOf g' u = depsOf g u)
    (hid : depsOf g' id = nd) {x y : Nat}
    (h : Relation.ReflTransGen (Edge g') x y) :
    Relation.ReflTransGen (fun a b => Edge g a b ∧ a ≠ id) x y ∨
      (Relation.ReflTransGen (Edge g') x id ∧
        ∃ d ∈ nd, Relation.ReflTransGen (Edge g') d y) := by
  induction h using Relation.ReflTransGen.head_induction_on with
  | refl => exact Or.inl Relation.ReflTransGen.refl
  | head hxz hzy ih =>
      rename_i x' z
      by_cases hx : x' = id
      · subst hx
        refine Or.inr ⟨Relation.ReflTransGen.refl, z, ?_, hzy⟩
        unfold Edge at hxz
        rwa [hid] at hxz
      · have hxz' : Edge g x' z := by
          unfold Edge at hxz ⊢
          rwa [hne x' hx] at hxz
        rcases ih with ihl | ⟨hzid, d, hd, hdy⟩
        · exact Or.inl (ihl.head ⟨hxz', hx⟩)
        · exact Or.inr ⟨hzid.head hxz, d, hd, hdy⟩

theorem hasCycle_subst_reach {g g' : DepGraph} {id : Nat} {nd : List Nat}
    (hne : ∀ u, u ≠ id → depsOf g' u = depsOf g u)
    (hid : depsOf g' id = nd)
    (hacyc : ¬ HasCycle g) (hcyc : HasCycle g') :
    ∃ d ∈ nd, ReachesP g' d id := by
  rcases hcyc with ⟨a, b, hE, hR⟩
  rcases reflTransGen_subst_cases hne hid hR with hL | ⟨hbid, d, hd, hda⟩
  · by_cases ha : a = id
    · subst ha
      refine ⟨b, ?_, ?_⟩
      · unfold Edge at hE
        rwa [hid] at hE
      · exact hL.mono (fun _ _ huv => avoid_edge_new hne huv)
    · exfalso
      apply hacyc
      refine ⟨a, b, ?_, hL.mono (fun _ _ huv => huv.1)⟩
      unfold Edge at hE ⊢
      rwa [hne a ha] at hE
  · exact ⟨d, hd, (hda.tail hE).trans hbid⟩

theorem acyclic_subst {g g' : DepGraph} {id : Nat} {nd : List Nat}
    (hne : ∀ u, u ≠ id → depsOf g' u = depsOf g u)
    (hid : depsOf g' id = nd)
    (hacyc : ¬ HasCycle g)
    (hno : ∀ d ∈ nd, ¬ ReachesP g' d id) : ¬ HasCycle g' := by
  intro hcyc
  rcases hasCycle_subst_reach hne hid hacyc hcyc with ⟨d, hd, hr⟩
  exact hno d hd hr

theorem acyclic_of_edge_le {g g₂ : DepGraph}
    (hle : ∀ a b, Edge g₂ a b → Edge g a b)
    (hacyc : ¬ HasCycle g) : ¬ HasCycle g₂ := by
  rintro ⟨a, b, hE, hR⟩
  exact hacyc ⟨a, b, hle a b hE, hR.mono (fun _ _ h => hle _ _ h)⟩

/-! ## Partition projections of the store mutations -/

theorem tasksIn_replace (ts : TaskStore) (p : String) (id : Nat) (t' : Task) :
    tasksIn (replaceTask ts p id t') p =
      (tasksIn ts p).map (fun t => if (t.id == id) = true then t' else t) := by
  induction ts with
  | nil => rfl
  | cons q rest ih =>
      by_cases hp : q.1 = p
      · by_cases hid : q.2.id = id
        · simpa [replaceTask, tasksIn, List.filter_cons, hp, hid] using ih
        · simpa [replaceTask, tasksIn, List.filter_cons, hp, hid] using ih
      · simpa [replaceTask, tasksIn, List.filter_cons, hp] using ih

theorem tasksIn_replace_ne (ts : TaskStore) (p : String) (id : Nat) (t' : Task)
    (p' : String) (h : p' ≠ p) :
    tasksIn (replaceTask ts p id t') p' = tasksIn ts p' := by
  induction ts with
  | nil => rfl
  | cons q rest ih =>
      have hpp : ¬ p = p' := fun hc => h hc.symm
      have hpp' : ¬ p' = p := h
      by_cases hp : q.1 = p
      · have hp' : ¬ q.1 = p' := by
          rw [hp]
          exact hpp
        by_cases hid : q.2.id = id
        · simpa [replaceTask, tasksIn, List.filter_cons, hp, hid, hp', hpp, hpp'] using ih
        · simpa [replaceTask, tasksIn, List.filter_cons, hp, hid, hp', hpp, hpp'] using ih
      · by_cases hp' : q.1 = p'
        · simpa [replaceTask, tasksIn, List.filter_cons, hp, hp', hpp, hpp'] using ih
        · simpa [replaceTask, tasksIn, List.filter_cons, hp, hp', hpp, hpp'] using ih

theorem tasksIn_append_self (ts : TaskStore) (p : String) (t0 : Task) :
    tasksIn (ts ++ [(p, t0)]) p = tasksIn ts p ++ [t0] := by
  simp [tasksIn, List.filter_append]

theorem tasksIn_append_ne (ts : TaskStore) (p : String) (t0 : Task)
    (p' : String) (h : p' ≠ p) :
    tasksIn (ts ++ [(p, t0)]) p' = tasksIn ts p' := by
  have hp : ¬ p = p' := fun hc => h hc.symm
  simp [tasksIn, List.filter_append, hp]

theorem tasksIn_filter_del (ts : TaskStore) (p : String) (id : Nat) :
    tasksIn (ts.filter (fun q => !(q.1 == p && q.2.id == id))) p =
      (tasksIn ts p).filter (fun t => !(t.id == id)) := by
  induction ts with
  | nil => rfl
  | cons q rest ih =>
      by_cases hp : q.1 = p
      · by_cases hid : q.2.id = id
        · simpa [tasksIn, List.filter_cons, hp, hid] using ih
        · simpa [tasksIn, List.filter_cons, hp, hid] using ih
      · simpa [tasksIn, List.filter_cons, hp] using ih

theorem tasksIn_filter_del_ne (ts : TaskStore) (p : String) (id : Nat)
    (p' : String) (h : p' ≠ p) :
    tasksIn (ts.filter (fun q => !(q.1 == p && q.2.id == id))) p' = tasksIn ts p' := by
  induction ts with
  | nil => rfl
  | cons q rest ih =>
      have hpp : ¬ p = p' := fun hc => h hc.symm
      have hpp' : ¬ p' = p := h
      by_cases hp : q.1 = p
      · have hp' : ¬ q.1 = p' := by
          rw [hp]
          exact hpp
        by_cases hid : q.2.id = id
        · simpa [tasksIn, List.filter_cons, hp, hid, hp', hpp, hpp'] using ih
        · simpa [tasksIn, List.filter_cons, hp, hid, hp', hpp, hpp'] using ih
      · by_cases hp' : q.1 = p'
        · simpa [tasksIn, List.filter_cons, hp, hp', hpp, hpp'] using ih
        · simpa [tasksIn, List.filter_cons, hp, hp', hpp, hpp'] using ih

/-! ## Graph projections of the store mutations -/

theorem graphOf_map_replace (l : List Task) (id : Nat) (t' : Task)
    (hid : t'.id = id) :
    graphOf (l.map (fun t => if (t.id == id) = true then t' else t)) =
      substGraph (graphOf l) id t'.dependencies := by
  unfold graphOf substGraph
  rw [List.map_map, List.map_map]
  apply List.map_congr_left
  intro t _
  by_cases h : (t.id == id) = true
  · have ht : t.id = id := by simpa using h
    simp [Function.comp, h, hid, ht]
  · simp [Function.comp, h]

theorem graphOf_append (l : List Task) (t0 : Task) :
    graphOf (l ++ [t0]) = graphOf l ++ [(t0.id, t0.dependencies)] := by
  simp [graphOf]

theorem graphOf_filter_del (l : List Task) (id : Nat) :
    graphOf (l.filter (fun t => !(t.id == id))) =
      (graphOf l).filter (fun e => !(e.1 == id)) := by
  induction l with
  | nil => rfl
  | cons t rest ih =>
      by_cases h : (t.id == id) = true
      · simp [graphOf, List.filter_cons, h] at ih ⊢
        exact ih
      · simp [graphOf, List.filter_cons, h] at ih ⊢
        exact ih

theorem depsOf_append_fresh_ne (g : DepGraph) (idn : Nat) (nd : List Nat)
    {u : Nat} (h : u ≠ idn) : depsOf (g ++ [(idn, nd)]) u = depsOf g u := by
  unfold depsOf
  rw [List.find?_append]
  rcases hf : g.find? (fun e => e.1 == u) with _ | e
  · have hne : ¬ ((idn, nd).1 == u) = true := by
      simp only [beq_iff_eq]
      exact fun hc => h hc.symm
    rw [hf, @List.find?_cons_of_neg _ (fun e => e.1 == u) (idn, nd) [] hne]
    rfl
  · rw [hf]
    rfl

theorem depsOf_append_fresh_self (g : DepGraph) (idn : Nat) (nd : List Nat)
    (h : ∀ e ∈ g, e.1 ≠ idn) : depsOf (g ++ [(idn, nd)]) idn = nd := by
  unfold depsOf
  rw [List.find?_append]
  have hf : g.find? (fun e => e.1 == idn) = none := by
    rw [List.find?_eq_none]
    intro e he
    simp only [beq_iff_eq]
    exact h e he
  simp [hf, Option.or, List.find?]

theorem depsOf_filter_out (g : DepGraph) (id : Nat) (v : Nat) :
    depsOf (g.filter (fun e => !(e.1 == id))) v =
      if v = id then [] else depsOf g v := by
  induction g with
  | nil => simp [depsOf]
  | cons e rest ih =>
      by_cases he : (e.1 == id) = true
      · have hek : e.1 = id := by simpa using he
        have hdrop : List.filter (fun e => !(e.1 == id)) (e :: rest) =
            List.filter (fun e => !(e.1 == id)) rest := by
          simp [List.filter_cons, he]
        by_cases hv : v = id
        · subst hv
          simpa [hdrop] using ih
        · have hne : ¬ (e.1 == v) = true := by
            simp only [beq_iff_eq, hek]
            exact fun hc => hv hc.symm
          rw [hdrop, ih, if_neg hv, if_neg hv]
          unfold depsOf
          rw [@List.find?_cons_of_neg _ (fun r => r.1 == v) e rest hne]
      · have hkeep : List.filter (fun e => !(e.1 == id)) (e :: rest) =
            e :: List.filter (fun e => !(e.1 == id)) rest := by
          simp [List.filter_cons, he]
        by_cases hev : (e.1 == v) = true
        · have hvi : ¬ v = id := by
            have hek : e.1 = v := by simpa using hev
            have hni : ¬ e.1 = id := by simpa using he
            exact fun hc => hni (by rw [hek, hc])
          rw [hkeep, if_neg hvi]
          unfold depsOf
          rw [@List.find?_cons_of_pos _ (fun r => r.1 == v) e _ hev,
            @List.find?_cons_of_pos _ (fun r => r.1 == v) e rest hev]
        · rw [hkeep]
          unfold depsOf at ih ⊢
          rw [@List.find?_cons_of_neg _ (fun r => r.1 == v) e _ hev,
            @List.find?_cons_of_neg _ (fun r => r.1 == v) e rest hev]
          exact ih

theorem substGraph_fresh (g : DepGraph) (idn : Nat) (nd : List Nat)
    (h : ∀ e ∈ g, e.1 ≠ idn) :
    substGraph (g ++ [(idn, nd)]) idn nd = g ++ [(idn, nd)] := by
  unfold substGraph
  rw [List.map_append]
  congr 1
  · have hfix : ∀ e ∈ g,
        (if (e.1 == idn) = true then (e.1, nd) else e) = id e := by
      intro e he
      have hne : ¬ (e.1 == idn) = true := by
        simp only [beq_iff_eq]
        exact h e he
      simp [hne]
    exact (List.map_congr_left hfix).trans (List.map_id g)
  · simp

theorem substGraph_idem (g : DepGraph) (id : Nat) (nd : List Nat) :
    substGraph (substGraph g id nd) id nd = substGraph g id nd := by
  unfold substGraph
  rw [List.map_map]
  apply List.map_congr_left
  intro e _
  by_cases h : (e.1 == id) = true <;> simp [Function.comp, h]

/-! ## Store membership lemmas -/

theorem findTaskEntry_some_mem {ts : TaskStore} {p : String} {id : Nat}
    {q : String × Task} (h : findTaskEntry ts p id = some q) :
    q.2 ∈ tasksIn ts p := by
  have hmem : q ∈ ts := List.mem_of_find?_eq_some h
  have hp : q.1 = p := (findTaskEntry_mem_props h).1
  simp only [tasksIn, List.mem_map, List.mem_filter]
  exact ⟨q, ⟨hmem, by simp [hp]⟩, rfl⟩

theorem findTaskEntry_none_ids {ts : TaskStore} {p : String} {id : Nat}
    (h : findTaskEntry ts p id = none) : ∀ t ∈ tasksIn ts p, t.id ≠ id := by
  intro t ht
  rw [findTaskEntry, List.find?_eq_none] at h
  simp only [tasksIn, List.mem_map, List.mem_filter] at ht
  rcases ht with ⟨q, ⟨hq, hp⟩, rfl⟩
  have := h q hq
  simp only [Bool.and_eq_true, beq_iff_eq, not_and] at this
  exact this (by simpa using hp)

theorem mem_graphOf {l : List Task} {t : Task} (h : t ∈ l) :
    (t.id, t.dependencies) ∈ graphOf l :=
  List.mem_map.mpr ⟨t, h, rfl⟩

theorem graphOf_keys {l : List Task} {e : Nat × List Nat} (h : e ∈ graphOf l) :
    ∃ t ∈ l, e.1 = t.id := by
  rcases List.mem_map.mp h with ⟨t, ht, rfl⟩
  exact ⟨t, ht, rfl⟩

/-! ## Validator inversion -/

theorem validateDeps_none_inv {ts : List Task} {taskId : Nat}
    {proposed : List Nat} (h : validateDeps ts taskId proposed = none) :
    taskId ∉ proposed ∧
      reaches (substGraph (graphOf ts) taskId proposed) proposed taskId = false := by
  unfold validateDeps at h
  by_cases h1 : taskId ∈ proposed
  · rw [if_pos h1] at h
    cases h
  · rw [if_neg h1] at h
    by_cases h2 : (proposed.all (fun d => ts.any (fun t => t.id == d))) = true
    · rw [if_pos h2] at h
      by_cases h3 : reaches (substGraph (graphOf ts) taskId proposed) proposed taskId = true
      · rw [if_pos h3] at h
        cases h
      · exact ⟨h1, Bool.not_eq_true _ ▸ h3⟩
    · rw [if_neg h2] at h
      cases h

theorem validateDeps_none_no_reach {ts : List Task} {taskId : Nat}
    {proposed : List Nat} (h : validateDeps ts taskId proposed = none) :
    ∀ d ∈ proposed,
      ¬ ReachesP (substGraph (graphOf ts) taskId proposed) d taskId := by
  intro d hd hr
  have hfalse := (validateDeps_none_inv h).2
  have : reaches (substGraph (graphOf ts) taskId proposed) proposed taskId = true :=
    (reaches_iff_exists _ _ _).mpr ⟨d, hd, hr⟩
  rw [hfalse] at this
  cases this

/-! ## Service operation inversion -/

theorem recordFailure_tasks (s : SState) (p : String) (id : Nat) (k : OpKind)
    (actor : String) (now : Nat) (reason : String) :
    (recordFailure s p id k actor now reason).tasks = s.tasks := rfl

theorem recordFailure_ledger (s : SState) (p : String) (id : Nat) (k : OpKind)
    (actor : String) (now : Nat) (reason : String) :
    (recordFailure s p id k actor now reason).ledger = s.ledger := rfl

theorem svcUpdateTask_ok_inv {s : SState} {p : String} {id expectedVersion : Nat}
    {patch : TaskPatch} {kind : OpKind} {actor : String} {now : Nat}
    {s1 : SState} {t' : Task}
    (h : svcUpdateTask s p id expectedVersion patch kind actor now = (s1, .ok t')) :
    ∃ q, findTaskEntry s.tasks p id = some q ∧
      q.2.version_number = expectedVersion ∧
      t' = bumpApply patch q.2 now ∧
      validateDeps (tasksIn s.tasks p) id t'.dependencies = none ∧
      s1 = { tasks := replaceTask s.tasks p id t',
             ledger := s.ledger ++ [mkSnapshot p t' kind actor now],
             audit := s.audit ++ [mkAudit p id kind actor now .success] } := by
  unfold svcUpdateTask at h
  split at h
  · simp at h
  · simp at h
  · rename_i ts' t'' heq
    split at h
    · simp at h
    · rename_i hval
      simp only [Prod.mk.injEq] at h
      obtain ⟨hs1, ht'⟩ := h
      have ht'' : t' = t'' := by
        cases ht'
        rfl
      subst ht''
      unfold updateTask at heq
      split at heq
      · cases heq
      · rename_i q hfe
        split at heq
        · rename_i hv
          simp only [Except.ok.injEq, Prod.mk.injEq] at heq
          obtain ⟨hts', htt⟩ := heq
          subst htt
          refine ⟨q, hfe, hv, rfl, hval, ?_⟩
          rw [← hs1, ← hts']
        · cases heq

theorem svcUpdateTask_err_inv {s : SState} {p : String} {id expectedVersion : Nat}
    {patch : TaskPatch} {kind : OpKind} {actor : String} {now : Nat}
    {e : SvcError}
    (h : (svcUpdateTask s p id expectedVersion patch kind actor now).2 = .error e) :
    (svcUpdateTask s p id expectedVersion patch kind actor now).1 =
      recordFailure s p id kind actor now (errReason e) := by
  unfold svcUpdateTask at h ⊢
  split at h
  all_goals try split at h
  all_goals simp_all

theorem svcInsertTask_ok_inv {s : SState} {p : String} {t0 : Task}
    {kind : OpKind} {actor : String} {now : Nat} {s1 : SState} {t' : Task}
    (h : svcInsertTask s p t0 kind actor now = (s1, .ok t')) :
    getTask s.tasks p t0.id = none ∧
      validateDeps (tasksIn s.tasks p ++ [t0]) t0.id t0.dependencies = none ∧
      t' = t0 ∧
      s1 = { tasks := s.tasks ++ [(p, t0)],
             ledger := s.ledger ++ [mkSnapshot p t0 kind actor now],
             audit := s.audit ++ [mkAudit p t0.id kind actor now .success] } := by
  unfold svcInsertTask at h
  split at h
  · simp at h
  · rename_i hg
    split at h
    · simp at h
    · rename_i hval
      simp only [Prod.mk.injEq] at h
      obtain ⟨hs1, ht'⟩ := h
      have ht'' : t' = t0 := by
        cases ht'
        rfl
      exact ⟨hg, hval, ht'', hs1.symm⟩

theorem svcInsertTask_err_inv {s : SState} {p : String} {t0 : Task}
    {kind : OpKind} {actor : String} {now : Nat} {e : SvcError}
    (h : (svcInsertTask s p t0 kind actor now).2 = .error e) :
    (svcInsertTask s p t0 kind actor now).1 =
      recordFailure s p t0.id kind actor now (errReason e) := by
  unfold svcInsertTask at h ⊢
  split at h
  all_goals try split at h
  all_goals simp_all

theorem svcDeleteTask_ok_inv {s : SState} {p : String} {id expectedVersion : Nat}
    {actor : String} {now : Nat} {s1 : SState} {t' : Task}
    (h : svcDeleteTask s p id expectedVersion actor now = (s1, .ok t')) :
    getTask s.tasks p id = some t' ∧
      t'.version_number = expectedVersion ∧
      s1 = { tasks := s.tasks.filter (fun q => !(q.1 == p && q.2.id == id)),
             ledger := s.ledger ++ [mkSnapshot p t' .delete actor now],
             audit := s.audit ++ [mkAudit p id .delete actor now .success] } := by
  unfold svcDeleteTask at h
  split at h
  · simp at h
  · rename_i t hg
    split at h
    · rename_i hv
      simp only [Prod.mk.injEq] at h
      obtain ⟨hs1, ht'⟩ := h
      have ht'' : t' = t := by
        cases ht'
        rfl
      subst ht''
      exact ⟨hg, hv, hs1.symm⟩
    · simp at h

theorem svcDeleteTask_err_inv {s : SState} {p : String} {id expectedVersion : Nat}
    {actor : String} {now : Nat} {e : SvcError}
    (h : (svcDeleteTask s p id expectedVersion actor now).2 = .error e) :
    (svcDeleteTask s p id expectedVersion actor now).1 =
      recordFailure s p id .delete actor now (errReason e) := by
  unfold svcDeleteTask at h ⊢
  split at h
  all_goals try split at h
  all_goals simp_all

/-! ## Acyclicity preservation -/

theorem getTask_none_findTaskEntry {ts : TaskStore} {p : String} {id : Nat}
    (h : getTask ts p id = none) : findTaskEntry ts p id = none := by
  unfold getTask at h
  exact Option.map_eq_none'.mp h

theorem svcUpdateTask_preserves_acyclic (s : SState) (p : String)
    (id expectedVersion : Nat) (patch : TaskPatch) (kind : OpKind)
    (actor : String) (now : Nat) (h : PartitionAcyclic s) :
    PartitionAcyclic (svcUpdateTask s p id expectedVersion patch kind actor now).1 := by
  rcases hres : (svcUpdateTask s p id expectedVersion patch kind actor now).2
      with e | t'
  · have h1 := svcUpdateTask_err_inv hres
    rw [h1]
    exact h
  · rcases hok : svcUpdateTask s p id expectedVersion patch kind actor now
        with ⟨s1, res⟩
    have hres' : res = .ok t' := by
      rw [hok] at hres
      exact hres
    subst hres'
    rcases svcUpdateTask_ok_inv hok with
      ⟨q, hfe, hv, ht', hval, hs1⟩
    intro p'
    rw [hs1]
    by_cases hp : p' = p
    · subst hp
      have hid : t'.id = id := by
        rw [ht']
        simpa [bumpApply, applyPatch_id] using (findTaskEntry_mem_props hfe).2
      have hgr : graphOf (tasksIn (replaceTask s.tasks p' id t') p') =
          substGraph (graphOf (tasksIn s.tasks p')) id t'.dependencies := by
        rw [tasksIn_replace]
        exact graphOf_map_replace _ id t' hid
      show ¬ HasCycle (graphOf (tasksIn (replaceTask s.tasks p' id t') p'))
      rw [hgr]
      refine acyclic_subst (fun u hu => depsOf_subst_ne _ hu)
        (depsOf_subst_self _ ?_) (h p') ?_
      · exact ⟨(q.2.id, q.2.dependencies), mem_graphOf (findTaskEntry_some_mem hfe),
          (findTaskEntry_mem_props hfe).2⟩
      · exact validateDeps_none_no_reach hval
    · show ¬ HasCycle (graphOf (tasksIn (replaceTask s.tasks p id t') p'))
      rw [tasksIn_replace_ne s.tasks p id t' p' hp]
      exact h p'

theorem svcInsertTask_preserves_acyclic (s : SState) (p : String) (t0 : Task)
    (kind : OpKind) (actor : String) (now : Nat) (h : PartitionAcyclic s) :
    PartitionAcyclic (svcInsertTask s p t0 kind actor now).1 := by
  rcases hres : (svcInsertTask s p t0 kind actor now).2 with e | t'
  · have h1 := svcInsertTask_err_inv hres
    rw [h1]
    exact h
  · rcases hok : svcInsertTask s p t0 kind actor now with ⟨s1, res⟩
    have hres' : res = .ok t' := by
      rw [hok] at hres
      exact hres
    subst hres'
    rcases svcInsertTask_ok_inv hok with ⟨hg, hval, _, hs1⟩
    intro p'
    rw [hs1]
    by_cases hp : p' = p
    · subst hp
      have hids : ∀ t ∈ tasksIn s.tasks p', t.id ≠ t0.id :=
        findTaskEntry_none_ids (getTask_none_findTaskEntry hg)
      have hkeys : ∀ e ∈ graphOf (tasksIn s.tasks p'), e.1 ≠ t0.id := by
        intro e he
        rcases graphOf_keys he with ⟨t, ht, hkey⟩
        rw [hkey]
        exact hids t ht
      have hgr : graphOf (tasksIn (s.tasks ++ [(p', t0)]) p') =
          graphOf (tasksIn s.tasks p') ++ [(t0.id, t0.dependencies)] := by
        rw [tasksIn_append_self, graphOf_append]
      have hsubfix : substGraph (graphOf (tasksIn s.tasks p' ++ [t0]))
          t0.id t0.dependencies =
          graphOf (tasksIn s.tasks p') ++ [(t0.id, t0.dependencies)] := by
        rw [graphOf_append]
        exact substGraph_fresh _ _ _ hkeys
      have hno := validateDeps_none_no_reach hval
      rw [hsubfix] at hno
      show ¬ HasCycle (graphOf (tasksIn (s.tasks ++ [(p', t0)]) p'))
      rw [hgr]
      exact acyclic_subst (fun u hu => depsOf_append_fresh_ne _ _ _ hu)
        (depsOf_append_fresh_self _ _ _ hkeys) (h p') hno
    · show ¬ HasCycle (graphOf (tasksIn (s.tasks ++ [(p, t0)]) p'))
      rw [tasksIn_append_ne s.tasks p t0 p' hp]
      exact h p'

theorem svcDeleteTask_preserves_acyclic (s : SState) (p : String)
    (id expectedVersion : Nat) (actor : String) (now : Nat)
    (h : PartitionAcyclic s) :
    PartitionAcyclic (svcDeleteTask s p id expectedVersion actor now).1 := by
  rcases hres : (svcDeleteTask s p id expectedVersion actor now).2 with e | t'
  · have h1 := svcDeleteTask_err_inv hres
    rw [h1]
    exact h
  · rcases hok : svcDeleteTask s p id expectedVersion actor now with ⟨s1, res⟩
    have hres' : res = .ok t' := by
      rw [hok] at hres
      exact hres
    subst hres'
    rcases svcDeleteTask_ok_inv hok with ⟨_, _, hs1⟩
    intro p'
    rw [hs1]
    by_cases hp : p' = p
    · subst hp
      show ¬ HasCycle (graphOf (tasksIn
        (s.tasks.filter (fun q => !(q.1 == p' && q.2.id == id))) p'))
      rw [tasksIn_filter_del, graphOf_filter_del]
      refine acyclic_of_edge_le ?_ (h p')
      intro a b hE
      unfold Edge at hE ⊢
      rw [depsOf_filter_out] at hE
      by_cases ha : a = id
      · rw [if_pos ha] at hE
        cases hE
      · rwa [if_neg ha] at hE
    · show ¬ HasCycle (graphOf (tasksIn
        (s.tasks.filter (fun q => !(q.1 == p && q.2.id == id))) p'))
      rw [tasksIn_filter_del_ne s.tasks p id p' hp]
      exact h p'

theorem svcRevertTask_preserves_acyclic (s : SState) (p : String)
    (id seqNo : Nat) (actor : String) (now : Nat) (h : PartitionAcyclic s) :
    PartitionAcyclic (svcRevertTask s p id seqNo actor now).1 := by
  unfold svcRevertTask
  split
  · exact h
  · split
    · exact svcUpdateTask_preserves_acyclic _ _ _ _ _ _ _ _ h
    · exact svcInsertTask_preserves_acyclic _ _ _ _ _ _ h

theorem runOp_preserves_acyclic (s : SState) (op : SvcOp)
    (h : PartitionAcyclic s) : PartitionAcyclic (runOp s op).1 := by
  cases op with
  | create p id name description ig vc deps actor now =>
      exact svcInsertTask_preserves_acyclic _ _ _ _ _ _ h
  | update p id ev patch actor now =>
      exact svcUpdateTask_preserves_acyclic _ _ _ _ _ _ _ _ h
  | delete p id ev actor now =>
      exact svcDeleteTask_preserves_acyclic _ _ _ _ _ _ h
  | revert p id seqNo actor now =>
      exact svcRevertTask_preserves_acyclic _ _ _ _ _ _ h

theorem applyOps_preserves_acyclic (s : SState) (ops : List SvcOp)
    (h : PartitionAcyclic s) : PartitionAcyclic (applyOps s ops) := by
  induction ops generalizing s with
  | nil => exact h
  | cons op rest ih => exact ih _ (runOp_preserves_acyclic s op h)

/-- C3.  Modelled from the spec: starting from any state whose partitions
are acyclic, every sequence of service mutations (create, update, delete,
revert) preserves the invariant that each partition's dependency edges
form a DAG — no cycle and no self-reference — and an update whose proposed
dependency set would close a cycle in the partition's graph is refused
with an error.  In the model, validation is evaluated against the
pre-commit state, so a rejected proposal never reaches the committed
store. -/
theorem c3_dependency_dag_invariant (s : SState) (ops : List SvcOp)
    (h : PartitionAcyclic s) :
    PartitionAcyclic (applyOps s ops) ∧
    (∀ p id expectedVersion patch actor now t,
      getTask (applyOps s ops).tasks p id = some t →
      HasCycle (substGraph (graphOf (tasksIn (applyOps s ops).tasks p)) id
        (applyPatch patch t).dependencies) →
      ∃ e, (svcUpdateTask (applyOps s ops) p id expectedVersion patch .update
        actor now).2 = .error e) := by
  have hacyc := applyOps_preserves_acyclic s ops h
  refine ⟨hacyc, ?_⟩
  intro p id expectedVersion patch actor now t hget hcyc
  rcases hres : (svcUpdateTask (applyOps s ops) p id expectedVersion patch
      .update actor now).2 with e | t'
  · exact ⟨e, rfl⟩
  · exfalso
    rcases hok : svcUpdateTask (applyOps s ops) p id expectedVersion patch
        .update actor now with ⟨s1, res⟩
    have hres' : res = .ok t' := by
      rw [hok] at hres
      exact hres
    subst hres'
    rcases svcUpdateTask_ok_inv hok with ⟨q, hfe, _, ht', hval, _⟩
    have hq : q.2 = t := by
      unfold getTask at hget
      rw [hfe] at hget
      simpa using hget
    have hdeps : t'.dependencies = (applyPatch patch t).dependencies := by
      rw [ht', hq]
      rfl
    have hnc : ¬ HasCycle (substGraph
        (graphOf (tasksIn (applyOps s ops).tasks p)) id t'.dependencies) := by
      refine acyclic_subst (fun u hu => depsOf_subst_ne _ hu)
        (depsOf_subst_self _ ?_) (hacyc p) (validateDeps_none_no_reach hval)
      exact ⟨(q.2.id, q.2.dependencies), mem_graphOf (findTaskEntry_some_mem hfe),
        (findTaskEntry_mem_props hfe).2⟩
    rw [hdeps] at hnc
    exact hnc hcyc

/-- Witness for C3: the empty deployment, the concrete create-create-update
run, and the concrete update that would close the 1-2 cycle and is
refused. -/
theorem c3_witness :
    PartitionAcyclic (applyOps emptyState exOps) ∧
    ∃ e, (svcUpdateTask (applyOps emptyState exOps) "default" 1 0
      { dependencies := some [2] } .update "u" 13).2 = .error e := by
  have hempty : PartitionAcyclic emptyState := by
    intro p hcyc
    rcases hcyc with ⟨a, b, hE, _⟩
    simp [Edge, depsOf, graphOf, tasksIn, emptyState] at hE
  have hc3 := c3_dependency_dag_invariant emptyState exOps hempty
  refine ⟨hc3.1, ?_⟩
  refine hc3.2 "default" 1 0 { dependencies := some [2] } "u" 13
    (mkNewTask 1 "A" "dA" "igA" "vcA" [] 10) (by decide) ?_
  exact ⟨1, 2, by decide, Relation.ReflTransGen.single (by decide)⟩

/-! ## Failure frames and ledger growth -/

theorem runOp_err_inv (s : SState) (op : SvcOp) (e : SvcError)
    (h : (runOp s op).2 = .error e) :
    ∃ p id k actor now, (runOp s op).1 =
      recordFailure s p id k actor now (errReason e) := by
  cases op with
  | create p id name description ig vc deps actor now =>
      exact ⟨p, _, .create, actor, now, svcInsertTask_err_inv h⟩
  | update p id expectedVersion patch actor now =>
      exact ⟨p, id, .update, actor, now, svcUpdateTask_err_inv h⟩
  | delete p id expectedVersion actor now =>
      exact ⟨p, id, .delete, actor, now, svcDeleteTask_err_inv h⟩
  | revert p id seqNo actor now =>
      simp only [runOp, svcRevertTask] at h ⊢
      rcases hf : findSnapshot s.ledger p id seqNo with _ | snap
      · simp only [hf] at h ⊢
        have he : SvcError.NotFound = e := by
          simpa using h
        subst he
        exact ⟨p, id, .rollback, actor, now, rfl⟩
      · simp only [hf] at h ⊢
        rcases hg : getTask s.tasks p id with _ | t
        · simp only [hg] at h ⊢
          exact ⟨p, _, .rollback, actor, now, svcInsertTask_err_inv h⟩
        · simp only [hg] at h ⊢
          exact ⟨p, id, .rollback, actor, now, svcUpdateTask_err_inv h⟩

theorem svcUpdateTask_ok_ledger {s : SState} {p : String}
    {id expectedVersion : Nat} {patch : TaskPatch} {kind : OpKind}
    {actor : String} {now : Nat} {t' : Task}
    (h : (svcUpdateTask s p id expectedVersion patch kind actor now).2 = .ok t') :
    (svcUpdateTask s p id expectedVersion patch kind actor now).1.ledger =
      s.ledger ++ [mkSnapshot p t' kind actor now] := by
  have hpair : svcUpdateTask s p id expectedVersion patch kind actor now =
      ((svcUpdateTask s p id expectedVersion patch kind actor now).1, .ok t') := by
    rw [← h]
  rcases svcUpdateTask_ok_inv hpair with ⟨q, _, _, _, _, hs1⟩
  rw [hs1]

theorem svcInsertTask_ok_ledger {s : SState} {p : String} {t0 : Task}
    {kind : OpKind} {actor : String} {now : Nat} {t' : Task}
    (h : (svcInsertTask s p t0 kind actor now).2 = .ok t') :
    (svcInsertTask s p t0 kind actor now).1.ledger =
      s.ledger ++ [mkSnapshot p t' kind actor now] := by
  have hpair : svcInsertTask s p t0 kind actor now =
      ((svcInsertTask s p t0 kind actor now).1, .ok t') := by
    rw [← h]
  rcases svcInsertTask_ok_inv hpair with ⟨_, _, ht', hs1⟩
  subst ht'
  rw [hs1]

theorem svcDeleteTask_ok_ledger {s : SState} {p : String}
    {id expectedVersion : Nat} {actor : String} {now : Nat} {t' : Task}
    (h : (svcDeleteTask s p id expectedVersion actor now).2 = .ok t') :
    (svcDeleteTask s p id expectedVersion actor now).1.ledger =
      s.ledger ++ [mkSnapshot p t' .delete actor now] := by
  have hpair : svcDeleteTask s p id expectedVersion actor now =
      ((svcDeleteTask s p id expectedVersion actor now).1, .ok t') := by
    rw [← h]
  rcases svcDeleteTask_ok_inv hpair with ⟨_, _, hs1⟩
  rw [hs1]

theorem runOp_ok_ledger (s : SState) (op : SvcOp) (t' : Task)
    (h : (runOp s op).2 = .ok t') :
    ∃ snap, (runOp s op).1.ledger = s.ledger ++ [snap] := by
  cases op with
  | create p id name description ig vc deps actor now =>
      exact ⟨_, svcInsertTask_ok_ledger h⟩
  | update p id expectedVersion patch actor now =>
      exact ⟨_, svcUpdateTask_ok_ledger h⟩
  | delete p id expectedVersion actor now =>
      exact ⟨_, svcDeleteTask_ok_ledger h⟩
  | revert p id seqNo actor now =>
      simp only [runOp, svcRevertTask] at h ⊢
      rcases hf : findSnapshot s.ledger p id seqNo with _ | snap
      · simp only [hf] at h
        simp at h
      · simp only [hf] at h ⊢
        rcases hg : getTask s.tasks p id with _ | t
        · simp only [hg] at h ⊢
          exact ⟨_, svcInsertTask_ok_ledger h⟩
        · simp only [hg] at h ⊢
          exact ⟨_, svcUpdateTask_ok_ledger h⟩

theorem runOp_ledger_extends (s : SState) (op : SvcOp) :
    ∃ ext, (runOp s op).1.ledger = s.ledger ++ ext := by
  rcases hres : (runOp s op).2 with e | t'
  · rcases runOp_err_inv s op e hres with ⟨p, id, k, actor, now, heq⟩
    rw [heq]
    exact ⟨[], by simp [recordFailure]⟩
  · rcases runOp_ok_ledger s op t' hres with ⟨snap, hl⟩
    exact ⟨[snap], hl⟩

theorem applyOps_ledger_extends (s : SState) (ops : List SvcOp) :
    ∃ ext, (applyOps s ops).ledger = s.ledger ++ ext := by
  induction ops generalizing s with
  | nil => exact ⟨[], by simp [applyOps]⟩
  | cons op rest ih =>
      rcases runOp_ledger_extends s op with ⟨e1, h1⟩
      rcases ih ((runOp s op).1) with ⟨e2, h2⟩
      refine ⟨e1 ++ e2, ?_⟩
      show (applyOps (runOp s op).1 rest).ledger = s.ledger ++ (e1 ++ e2)
      rw [h2, h1, List.append_assoc]

/-- C4.  Modelled from the spec: whatever service mutation fails — a
stale-version Conflict, a CycleDetected rejection, a NotFound — the failed
operation leaves the stored entities (including every version_number) and
the version ledger exactly as they were, and still appends exactly one
audit entry whose outcome is failure with the error's reason. -/
theorem c4_failed_mutation_frame_and_audit (s : SState) (op : SvcOp)
    (e : SvcError) (h : (runOp s op).2 = .error e) :
    (runOp s op).1.tasks = s.tasks ∧
    (runOp s op).1.ledger = s.ledger ∧
    (∀ p' id', getTask (runOp s op).1.tasks p' id' = getTask s.tasks p' id') ∧
    ∃ p id k actor now, (runOp s op).1.audit =
      s.audit ++ [mkAudit p id k actor now (.failure (errReason e))] := by
  rcases runOp_err_inv s op e h with ⟨p, id, k, actor, now, heq⟩
  rw [heq]
  exact ⟨rfl, rfl, fun p' id' => rfl, p, id, k, actor, now, rfl⟩

/-- Witness for C4: the stale-version update of the concrete two-task
state fails with Conflict, changes nothing, and is audited as a
failure. -/
theorem c4_witness :
    (runOp exStateDep (.update "default" 2 0 { status := some .completed }
      "u" 20)).1.tasks = exStateDep.tasks ∧
    (runOp exStateDep (.update "default" 2 0 { status := some .completed }
      "u" 20)).1.ledger = exStateDep.ledger ∧
    (∀ p' id', getTask (runOp exStateDep (.update "default" 2 0
      { status := some .completed } "u" 20)).1.tasks p' id' =
        getTask exStateDep.tasks p' id') ∧
    ∃ p id k actor now, (runOp exStateDep (.update "default" 2 0
      { status := some .completed } "u" 20)).1.audit =
      exStateDep.audit ++
        [mkAudit p id k actor now (.failure (errReason .Conflict))] :=
  c4_failed_mutation_frame_and_audit exStateDep
    (.update "default" 2 0 { status := some .completed } "u" 20) .Conflict
    (by rfl)

/-- C5.  Modelled from the spec: the Version Ledger is append-only: every
mutation leaves the existing ledger as a prefix and only appends (a
successful mutation appends exactly one snapshot, a failed one appends
nothing), so the per-entity `list` results grow over time — the result of
an earlier call is exactly the chronological prefix of any later call's
result (`list` returns newest first, so earlier results reappear as the
tail) and no earlier snapshot is ever updated, deleted or reordered. -/
theorem c5_ledger_append_only (s : SState) (ops : List SvcOp) (p : String)
    (id : Nat) :
    (∃ ext, (applyOps s ops).ledger = s.ledger ++ ext) ∧
    (∃ ext2, listVersions (applyOps s ops) p id =
      ext2 ++ listVersions s p id) ∧
    (∀ op t', (runOp s op).2 = .ok t' →
      ∃ snap, (runOp s op).1.ledger = s.ledger ++ [snap]) ∧
    (∀ op, ∀ snap ∈ s.ledger, snap ∈ (runOp s op).1.ledger) := by
  refine ⟨applyOps_ledger_extends s ops, ?_, fun op t' h => runOp_ok_ledger s op t' h, ?_⟩
  · rcases applyOps_ledger_extends s ops with ⟨ext, hext⟩
    refine ⟨(ext.filter (fun sn => sn.partition == p && sn.entity_id == id)).reverse, ?_⟩
    unfold listVersions
    rw [hext, List.filter_append, List.reverse_append]
  · intro op snap hmem
    rcases runOp_ledger_extends s op with ⟨ext, hext⟩
    rw [hext]
    exact List.mem_append_left _ hmem

/-- Witness for C5: the concrete run's ledger extends the empty ledger and
the successful dependency update appends exactly one snapshot. -/
theorem c5_witness :
    (∃ ext, (applyOps emptyState exOps).ledger = emptyState.ledger ++ ext) ∧
    (∃ ext2, listVersions (applyOps emptyState exOps) "default" 2 =
      ext2 ++ listVersions emptyState "default" 2) ∧
    ∃ snap, (runOp exStateAB (.update "default" 2 0
      { dependencies := some [1] } "u" 12)).1.ledger =
        exStateAB.ledger ++ [snap] := by
  have h5 := c5_ledger_append_only emptyState exOps "default" 2
  have h5' := c5_ledger_append_only exStateAB [] "default" 2
  refine ⟨h5.1, h5.2.1, ?_⟩
  refine h5'.2.2.1 (.update "default" 2 0 { dependencies := some [1] } "u" 12)
    (bumpApply { dependencies := some [1] }
      (mkNewTask 2 "B" "dB" "igB" "vcB" [] 11) 12) (by rfl)

/-! ## Partition deletion -/

theorem tasksIn_delete_self (ts : TaskStore) (p : String) :
    tasksIn (ts.filter (fun q => !(q.1 == p))) p = [] := by
  induction ts with
  | nil => rfl
  | cons q rest ih =>
      by_cases hp : q.1 = p <;> simpa [tasksIn, List.filter_cons, hp] using ih

theorem getTask_delete_self (ts : TaskStore) (p : String) (id : Nat) :
    getTask (ts.filter (fun q => !(q.1 == p))) p id = none := by
  refine Option.map_eq_none'.mpr (List.find?_eq_none.mpr ?_)
  intro q hq
  have hfq : (!(q.1 == p)) = true := (List.mem_filter.mp hq).2
  simp only [Bool.not_eq_true', beq_eq_false_iff_ne, ne_eq] at hfq
  simp [hfq]

theorem ledger_delete_self (l : List Snapshot) (p : String) (id : Nat) :
    (l.filter (fun sn => !(sn.partition == p))).filter
      (fun sn => sn.partition == p && sn.entity_id == id) = [] := by
  induction l with
  | nil => rfl
  | cons sn rest ih =>
      by_cases hp : sn.partition = p <;> simpa [List.filter_cons, hp] using ih

theorem tasksIn_delete_ne (ts : TaskStore) (p p' : String) (h : p' ≠ p) :
    tasksIn (ts.filter (fun q => !(q.1 == p))) p' = tasksIn ts p' := by
  induction ts with
  | nil => rfl
  | cons q rest ih =>
      have hpp : ¬ p = p' := fun hc => h hc.symm
      by_cases hp : q.1 = p
      · have hq : ¬ q.1 = p' := by
          rw [hp]
          exact hpp
        simpa [tasksIn, List.filter_cons, hp, hq, hpp, h] using ih
      · by_cases hq : q.1 = p'
        · simpa [tasksIn, List.filter_cons, hp, hq, hpp, h] using ih
        · simpa [tasksIn, List.filter_cons, hp, hq, hpp, h] using ih

theorem ledger_delete_ne (l : List Snapshot) (p p' : String) (id : Nat)
    (h : p' ≠ p) :
    (l.filter (fun sn => !(sn.partition == p))).filter
        (fun sn => sn.partition == p' && sn.entity_id == id) =
      l.filter (fun sn => sn.partition == p' && sn.entity_id == id) := by
  induction l with
  | nil => rfl
  | cons sn rest ih =>
      have hpp : ¬ p = p' := fun hc => h hc.symm
      by_cases hp : sn.partition = p
      · have hq : ¬ sn.partition = p' := by
          rw [hp]
          exact hpp
        simpa [List.filter_cons, hp, hq, hpp, h] using ih
      · by_cases hq : sn.partition = p'
        · by_cases hid : sn.entity_id = id
          · simpa [List.filter_cons, hp, hq, hid, hpp, h] using ih
          · simpa [List.filter_cons, hp, hq, hid, hpp, h] using ih
        · simpa [List.filter_cons, hp, hq, hpp, h] using ih

theorem getTask_delete_ne (ts : TaskStore) (p p' : String) (id : Nat)
    (h : p' ≠ p) :
    getTask (ts.filter (fun q => !(q.1 == p))) p' id = getTask ts p' id := by
  unfold getTask findTaskEntry
  congr 1
  induction ts with
  | nil => rfl
  | cons q rest ih =>
      by_cases hp : q.1 = p
      · have hdrop : List.filter (fun q => !(q.1 == p)) (q :: rest) =
            List.filter (fun q => !(q.1 == p)) rest := by
          simp [List.filter_cons, hp]
        have hq : ¬ (q.1 == p' && q.2.id == id) = true := by
          simp only [Bool.and_eq_true, beq_iff_eq, hp]
          rintro ⟨hc, -⟩
          exact h hc.symm
        rw [hdrop, @List.find?_cons_of_neg _
          (fun r => r.1 == p' && r.2.id == id) q rest hq]
        exact ih
      · have hkeep : List.filter (fun q => !(q.1 == p)) (q :: rest) =
            q :: List.filter (fun q => !(q.1 == p)) rest := by
          simp [List.filter_cons, hp]
        rw [hkeep]
        by_cases hq : (q.1 == p' && q.2.id == id) = true
        · rw [@List.find?_cons_of_pos _
            (fun r => r.1 == p' && r.2.id == id) q _ hq,
            @List.find?_cons_of_pos _
            (fun r => r.1 == p' && r.2.id == id) q rest hq]
        · rw [@List.find?_cons_of_neg _
            (fun r => r.1 == p' && r.2.id == id) q _ hq,
            @List.find?_cons_of_neg _
            (fun r => r.1 == p' && r.2.id == id) q rest hq]
          exact ih

/-- C7.  Modelled from the spec: deleting a partition removes exactly that
partition's entities and version ledger entries while the audit collection
is untouched, so an audit query for the deleted partition still returns
every pre-deletion entry; other partitions' entities and ledgers are
unaffected. -/
theorem c7_partition_deletion_preserves_audit (s : SState) (p : String) :
    tasksIn (deletePartition s p).tasks p = [] ∧
    (∀ id, getTask (deletePartition s p).tasks p id = none) ∧
    (∀ id, listVersions (deletePartition s p) p id = []) ∧
    (deletePartition s p).audit = s.audit ∧
    queryAudit (deletePartition s p) p = queryAudit s p ∧
    (∀ p', p' ≠ p →
      tasksIn (deletePartition s p).tasks p' = tasksIn s.tasks p' ∧
      (∀ id, getTask (deletePartition s p).tasks p' id = getTask s.tasks p' id) ∧
      (∀ id, listVersions (deletePartition s p) p' id = listVersions s p' id)) := by
  refine ⟨tasksIn_delete_self s.tasks p, fun id => getTask_delete_self s.tasks p id,
    fun id => ?_, rfl, rfl, fun p' hp' => ⟨tasksIn_delete_ne s.tasks p p' hp',
      fun id => getTask_delete_ne s.tasks p p' id hp', fun id => ?_⟩⟩
  · show ((s.ledger.filter (fun sn => !(sn.partition == p))).filter
      (fun sn => sn.partition == p && sn.entity_id == id)).reverse = []
    rw [ledger_delete_self]
    rfl
  · show ((s.ledger.filter (fun sn => !(sn.partition == p))).filter
      (fun sn => sn.partition == p' && sn.entity_id == id)).reverse = _
    rw [ledger_delete_ne s.ledger p p' id hp']
    rfl

/-- Witness for C7 on the concrete two-task state: deletion of the default
partition clears its tasks and versions, keeps the audit query intact, and
leaves a foreign partition untouched. -/
theorem c7_witness :
    tasksIn (deletePartition exStateDep "default").tasks "default" = [] ∧
    (∀ id, getTask (deletePartition exStateDep "default").tasks "default" id = none) ∧
    (∀ id, listVersions (deletePartition exStateDep "default") "default" id = []) ∧
    (deletePartition exStateDep "default").audit = exStateDep.audit ∧
    queryAudit (deletePartition exStateDep "default") "default" =
      queryAudit exStateDep "default" ∧
    (tasksIn (deletePartition exStateDep "default").tasks "other" =
      tasksIn exStateDep.tasks "other") := by
  have h := c7_partition_deletion_preserves_audit exStateDep "default"
  exact ⟨h.1, h.2.1, h.2.2.1, h.2.2.2.1, h.2.2.2.2.1,
    (h.2.2.2.2.2 "other" (by decide)).1⟩

/-! ## Revert -/

theorem findSnapshot_append_last (l : List Snapshot) (sn : Snapshot)
    (p : String) (id seqNo : Nat) (hp : sn.partition = p)
    (hid : sn.entity_id = id) (hseq : sn.sequence_no = seqNo) :
    findSnapshot (l ++ [sn]) p id seqNo = some sn := by
  unfold findSnapshot
  rw [List.reverse_append]
  simp only [List.reverse_cons, List.reverse_nil, List.nil_append,
    List.singleton_append]
  exact List.find?_cons_of_pos _ (by simp [hp, hid, hseq])

theorem validateDeps_replace_stable (ts : List Task) (id : Nat) (t1 : Task)
    (hid : t1.id = id) :
    validateDeps (ts.map (fun t => if (t.id == id) = true then t1 else t)) id
        t1.dependencies =
      validateDeps ts id t1.dependencies := by
  have hany : ∀ d, ((ts.map (fun t => if (t.id == id) = true then t1 else t)).any
      (fun t => t.id == d)) = (ts.any (fun t => t.id == d)) := by
    intro d
    induction ts with
    | nil => rfl
    | cons t rest ih =>
        by_cases hT : (t.id == id) = true
        · have htid : t.id = id := by simpa using hT
          simp only [List.map_cons, List.any_cons, if_pos hT, ih]
          congr 1
          rw [hid, htid]
        · simp only [List.map_cons, List.any_cons, if_neg hT, ih]
  have hall : ∀ ds : List Nat,
      (ds.all (fun d => (ts.map (fun t => if (t.id == id) = true then t1 else t)).any
        (fun t => t.id == d))) = (ds.all (fun d => ts.any (fun t => t.id == d))) := by
    intro ds
    induction ds with
    | nil => rfl
    | cons d ds ih => simp only [List.all_cons, hany d, ih]
  have hgr : substGraph (graphOf (ts.map
      (fun t => if (t.id == id) = true then t1 else t))) id t1.dependencies =
      substGraph (graphOf ts) id t1.dependencies := by
    rw [graphOf_map_replace ts id t1 hid, substGraph_idem]
  unfold validateDeps
  rw [hall t1.dependencies, hgr]

theorem svcUpdateTask_commit (s : SState) (p : String) (id : Nat)
    {q : String × Task} (hfe : findTaskEntry s.tasks p id = some q)
    (patch : TaskPatch) (kind : OpKind) (actor : String) (now : Nat)
    (hval : validateDeps (tasksIn s.tasks p) id
      (bumpApply patch q.2 now).dependencies = none) :
    svcUpdateTask s p id q.2.version_number patch kind actor now =
      ({ tasks := replaceTask s.tasks p id (bumpApply patch q.2 now),
         ledger := s.ledger ++
           [mkSnapshot p (bumpApply patch q.2 now) kind actor now],
         audit := s.audit ++ [mkAudit p id kind actor now .success] },
       .ok (bumpApply patch q.2 now)) := by
  unfold svcUpdateTask updateTask
  simp only [hfe]
  simp only [if_true]
  simp only [hval]

theorem svcRevertTask_dispatch_update (s : SState) (p : String)
    (id seqNo : Nat) {S : Snapshot} {t : Task}
    (hS : findSnapshot s.ledger p id seqNo = some S)
    (ht : getTask s.tasks p id = some t) (actor : String) (now : Nat) :
    svcRevertTask s p id seqNo actor now =
      svcUpdateTask s p id t.version_number (patchOfPayload S.payload)
        .rollback actor now := by
  unfold svcRevertTask
  simp only [hS, ht]

/-- C6.  Modelled from the spec: reverting an entity to snapshot S and then
immediately reverting to the snapshot the first revert produced restores an
entity whose domain content equals S's payload (version_number and the
store-managed timestamps keep advancing); each revert commits through the
normal update path tagged rollback, and each only appends one new, later
snapshot — the existing ledger is never truncated or mutated. -/
theorem c6_revert_roundtrip (s : SState) (p : String) (id seqNo : Nat)
    (S : Snapshot) (t : Task) (a1 a2 : String) (n1 n2 : Nat)
    (hS : findSnapshot s.ledger p id seqNo = some S)
    (ht : getTask s.tasks p id = some t)
    (hpid : S.payload.id = id)
    (hval : validateDeps (tasksIn s.tasks p) id S.payload.dependencies = none) :
    ∃ s1 t1 s2 t2,
      svcRevertTask s p id seqNo a1 n1 = (s1, .ok t1) ∧
      contentEq t1 S.payload ∧
      s1.ledger = s.ledger ++ [mkSnapshot p t1 .rollback a1 n1] ∧
      (mkSnapshot p t1 .rollback a1 n1).operation = .rollback ∧
      (mkSnapshot p t1 .rollback a1 n1).sequence_no = t1.version_number ∧
      svcRevertTask s1 p id t1.version_number a2 n2 = (s2, .ok t2) ∧
      contentEq t2 S.payload ∧
      s2.ledger = s1.ledger ++ [mkSnapshot p t2 .rollback a2 n2] := by
  rcases hfe : findTaskEntry s.tasks p id with _ | q
  · rw [getTask, hfe] at ht
    cases ht
  · have hq : q.2 = t := by simpa [getTask, hfe] using ht
    have htid : t.id = id := hq ▸ (findTaskEntry_mem_props hfe).2
    have hT1id : (bumpApply (patchOfPayload S.payload) t n1).id = id := by
      simpa [bumpApply, applyPatch_id] using htid
    have hval1 : validateDeps (tasksIn s.tasks p) id
        (bumpApply (patchOfPayload S.payload) q.2 n1).dependencies = none := hval
    have h1 := svcUpdateTask_commit s p id hfe (patchOfPayload S.payload)
      .rollback a1 n1 hval1
    rw [hq] at h1
    have hrun1 := (svcRevertTask_dispatch_update s p id seqNo hS ht a1 n1).trans h1
    have hfe1 : findTaskEntry
        (replaceTask s.tasks p id (bumpApply (patchOfPayload S.payload) t n1)) p id =
        some (q.1, bumpApply (patchOfPayload S.payload) t n1) := by
      rw [findTaskEntry_replace s.tasks p id hT1id, hfe]
      rfl
    have ht1get : getTask
        (replaceTask s.tasks p id (bumpApply (patchOfPayload S.payload) t n1)) p id =
        some (bumpApply (patchOfPayload S.payload) t n1) :=
      getTask_replace_self hfe hT1id
    have hval2core : validateDeps (tasksIn
        (replaceTask s.tasks p id (bumpApply (patchOfPayload S.payload) t n1)) p) id
        (bumpApply (patchOfPayload S.payload) t n1).dependencies = none := by
      rw [tasksIn_replace,
        validateDeps_replace_stable _ _ _ hT1id]
      exact hval
    have hS1 : findSnapshot (s.ledger ++
        [mkSnapshot p (bumpApply (patchOfPayload S.payload) t n1) .rollback a1 n1])
        p id (bumpApply (patchOfPayload S.payload) t n1).version_number =
        some (mkSnapshot p (bumpApply (patchOfPayload S.payload) t n1)
          .rollback a1 n1) :=
      findSnapshot_append_last _ _ _ _ _ rfl hT1id rfl
    have hval2 : validateDeps (tasksIn
        (replaceTask s.tasks p id (bumpApply (patchOfPayload S.payload) t n1)) p) id
        (bumpApply (patchOfPayload (bumpApply (patchOfPayload S.payload) t n1))
          (q.1, bumpApply (patchOfPayload S.payload) t n1).2 n2).dependencies =
        none := hval2core
    have h2 := svcUpdateTask_commit
      { tasks := replaceTask s.tasks p id (bumpApply (patchOfPayload S.payload) t n1),
        ledger := s.ledger ++
          [mkSnapshot p (bumpApply (patchOfPayload S.payload) t n1) .rollback a1 n1],
        audit := s.audit ++ [mkAudit p id .rollback a1 n1 .success] }
      p id hfe1
      (patchOfPayload (bumpApply (patchOfPayload S.payload) t n1)) .rollback a2 n2
      hval2
    have hrun2 := (svcRevertTask_dispatch_update
      { tasks := replaceTask s.tasks p id (bumpApply (patchOfPayload S.payload) t n1),
        ledger := s.ledger ++
          [mkSnapshot p (bumpApply (patchOfPayload S.payload) t n1) .rollback a1 n1],
        audit := s.audit ++ [mkAudit p id .rollback a1 n1 .success] }
      p id (bumpApply (patchOfPayload S.payload) t n1).version_number
      hS1 ht1get a2 n2).trans h2
    refine ⟨_, _, _, _, hrun1, ?_, rfl, rfl, rfl, hrun2, ?_, rfl⟩
    · refine ⟨?_, rfl, rfl, rfl, rfl, rfl, rfl, rfl, rfl, rfl⟩
      show t.id = S.payload.id
      rw [htid, hpid]
    · refine ⟨?_, rfl, rfl, rfl, rfl, rfl, rfl, rfl, rfl, rfl⟩
      show t.id = S.payload.id
      rw [htid, hpid]

/-- Witness for C6: reverting task 2 of the concrete run to its create
snapshot and then reverting to the snapshot that revert produced. -/
theorem c6_witness :
    ∃ s1 t1 s2 t2,
      svcRevertTask exStateDep "default" 2 0 "u" 20 = (s1, .ok t1) ∧
      contentEq t1 exSnapB.payload ∧
      s1.ledger = exStateDep.ledger ++
        [mkSnapshot "default" t1 .rollback "u" 20] ∧
      (mkSnapshot "default" t1 .rollback "u" 20).operation = .rollback ∧
      (mkSnapshot "default" t1 .rollback "u" 20).sequence_no =
        t1.version_number ∧
      svcRevertTask s1 "default" 2 t1.version_number "u" 21 = (s2, .ok t2) ∧
      contentEq t2 exSnapB.payload ∧
      s2.ledger = s1.ledger ++ [mkSnapshot "default" t2 .rollback "u" 21] :=
  c6_revert_roundtrip exStateDep "default" 2 0 exSnapB
    (bumpApply { dependencies := some [1] }
      (mkNewTask 2 "B" "dB" "igB" "vcB" [] 11) 12) "u" "u" 20 21
    (by decide) (by rfl) (by decide) (by decide)

end Wr124
